import Mathlib

/-!
Verification development for the bastyon-video-downloader repository
(`src/lib/index.js`): a shallow embedding in Lean 4 of the core pipeline
(reference normalization, Bastyon post detection, candidate selection,
output-name derivation, and the file-transfer engine), together with
theorems settling the specification claims.

Modelling conventions:
* JavaScript strings are Lean `String`s; character-level operations work on
  `String.data : List Char`.
* JavaScript `null`/`undefined` and falsy-chaining (`a || b`) are modelled
  with `Option` plus explicit falsiness of `""` and `0`.
* The WHATWG `URL` constructor is modelled by `parseUrlL`, a simplified
  parser covering `scheme:[//][userinfo@]host[/path][?query][#fragment]`;
  it returns `none` where the constructor throws.  Percent-decoding,
  punycode, default-port stripping and dot-segment normalization are not
  modelled; the theorems below only quantify over inputs where these
  transformations are the identity.
* The filesystem is a finite map from paths to byte lists; `fetch` outcomes
  are passed in explicitly as a `FetchResp` value (status, body presence,
  content-length header, the chunk sequence delivered by the stream, and
  how the stream ended).
-/

namespace BVD

/-! ### JavaScript string primitives (character-list level) -/

/-- Prefix test on character lists; `isPre p l` is true iff `p` is a prefix
of `l`.  Models `String.prototype.startsWith` and segment matching. -/
def isPre : List Char → List Char → Bool
  | [], _ => true
  | _ :: _, [] => false
  | p :: ps, c :: cs => p == c && isPre ps cs

/-- `String.prototype.startsWith`. -/
def jsStartsWith (s pre : String) : Bool := isPre pre.data s.data

/-- Substring occurrence test; models `/pat/.test(s)` for a literal pattern. -/
def hasSub (pat : List Char) : List Char → Bool
  | [] => isPre pat []
  | c :: cs => isPre pat (c :: cs) || hasSub pat cs

/-- `String.prototype.split` with a single-character separator: JavaScript
semantics (`"".split(x) = [""]`, empty segments kept). -/
def jsSplitChar (sep : Char) : List Char → List (List Char)
  | [] => [[]]
  | c :: cs =>
    match jsSplitChar sep cs with
    | [] => [[]]
    | seg :: rest => if c = sep then [] :: seg :: rest else (c :: seg) :: rest

/-- Replace the first occurrence of `pat` in the list by `rep`; models
`String.prototype.replace` with a string pattern (first occurrence only). -/
def replaceFirstL (pat rep : List Char) : List Char → List Char
  | [] => if pat = [] then rep else []
  | c :: cs =>
    if isPre pat (c :: cs) then rep ++ (c :: cs).drop pat.length
    else c :: replaceFirstL pat rep cs

/-- `String.prototype.replace` with a string pattern (first occurrence). -/
def jsReplaceFirst (s pat rep : String) : String :=
  String.mk (replaceFirstL pat.data rep.data s.data)

/-- ASCII lowercasing of one character; models the host lowercasing done by
the URL parser and `String.prototype.toLowerCase` on ASCII data. -/
def lowerChar (c : Char) : Char :=
  if 65 ≤ c.toNat ∧ c.toNat ≤ 90 then Char.ofNat (c.toNat + 32) else c

/-- The JavaScript whitespace class (`\s` in regexps, and the set trimmed
by `String.prototype.trim`). -/
def jsSpace (c : Char) : Bool :=
  let n := c.toNat
  (9 ≤ n ∧ n ≤ 13) ∨ n = 32 ∨ n = 160 ∨ n = 5760 ∨ (8192 ≤ n ∧ n ≤ 8202) ∨
    n = 8232 ∨ n = 8233 ∨ n = 8239 ∨ n = 8287 ∨ n = 12288 ∨ n = 65279

/-- `String.prototype.trim` on a character list. -/
def jsTrimL (l : List Char) : List Char :=
  ((l.dropWhile jsSpace).reverse.dropWhile jsSpace).reverse

/-- Auxiliary state machine for whitespace collapsing: `prevSpace` records
whether the previous input character was whitespace (in which case further
whitespace is dropped rather than emitted). -/
def collapseWsAux (prevSpace : Bool) : List Char → List Char
  | [] => []
  | c :: cs =>
    if jsSpace c then
      if prevSpace then collapseWsAux true cs else ' ' :: collapseWsAux true cs
    else c :: collapseWsAux false cs

/-- Collapse every maximal run of JavaScript whitespace into a single
space; models `.replace(/\s+/g, ' ')`. -/
def collapseWs (l : List Char) : List Char := collapseWsAux false l

/-- The segment of `l` after its last `'@'` (all of `l` when none); models
the WHATWG rule that userinfo ends at the last `'@'` of the authority. -/
def afterLastAt (l : List Char) : List Char :=
  (l.reverse.takeWhile (· ≠ '@')).reverse

/-- Suffix test on strings; models `String.prototype.endsWith`. -/
def jsEndsWith (s suf : String) : Bool := isPre suf.data.reverse s.data.reverse

/-! ### The WHATWG URL model -/

/-- The observable parts of a parsed URL used by the repository:
`host` (authority including any port, lowercased), `pathname`, and the
query string (without the leading `'?'`). -/
structure JsUrl where
  scheme : List Char
  host : List Char
  pathname : List Char
  search : List Char
  deriving Repr, DecidableEq

/-- Characters allowed after the first character of a URL scheme. -/
def isSchemeChar (c : Char) : Bool :=
  c.isAlpha || c.isDigit || c = '+' || c = '-' || c = '.'

/-- A character that does not terminate the authority component. -/
def authChar (c : Char) : Bool := c ≠ '/' && c ≠ '?' && c ≠ '#' && c ≠ '\\'

/-- The WHATWG special schemes relevant here (empty hosts rejected). -/
def specialSchemes : List (List Char) :=
  ["http".data, "https".data, "ws".data, "wss".data, "ftp".data, "file".data]

/-- Shared tail of the URL parser: split `r` into pathname (up to `'?'` or
`'#'`) and query (after `'?'`, up to `'#'`). -/
def splitPathSearch (r : List Char) : List Char × List Char :=
  let path0 := r.takeWhile fun c => c ≠ '?' && c ≠ '#'
  let rest := r.dropWhile fun c => c ≠ '?' && c ≠ '#'
  let search :=
    match rest with
    | '?' :: q => q.takeWhile (· ≠ '#')
    | _ => []
  (path0, search)

/-- The special-scheme branch of the URL parser: skip any run of slashes,
then parse a mandatory authority followed by path and query. -/
def specialTail (scheme r2 : List Char) : Option JsUrl :=
  let r3 := r2.dropWhile fun c => c = '/' || c = '\\'
  let auth := r3.takeWhile authChar
  let r4 := r3.dropWhile authChar
  let host := (afterLastAt auth).map lowerChar
  if host = [] then none
  else
    let ps := splitPathSearch r4
    some ⟨scheme, host, if ps.1 = [] then ['/'] else ps.1, ps.2⟩

/-- Model of the `new URL(input)` constructor (see module comment for the
scope of the model); `none` models the constructor throwing. -/
def parseUrlL (cs : List Char) : Option JsUrl :=
  let sch := cs.takeWhile isSchemeChar
  match cs.dropWhile isSchemeChar with
  | ':' :: r2 =>
    if (sch.headD '0').isAlpha then
      let scheme := sch.map lowerChar
      if specialSchemes.contains scheme then
        specialTail scheme r2
      else
        match r2 with
        | '/' :: '/' :: r3 =>
          -- non-special scheme with an authority
          let auth := r3.takeWhile authChar
          let r4 := r3.dropWhile authChar
          let host := (afterLastAt auth).map lowerChar
          let ps := splitPathSearch r4
          some ⟨scheme, host, if ps.1 = [] then ['/'] else ps.1, ps.2⟩
        | _ =>
          -- opaque path
          let ps := splitPathSearch r2
          some ⟨scheme, [], ps.1, ps.2⟩
    else none
  | _ => none

/-- `new URL` on a Lean `String`. -/
def parseUrl (s : String) : Option JsUrl := parseUrlL s.data

/-- Key of one `k=v` query segment (everything before the first `'='`). -/
def paramKeyL (seg : List Char) : List Char := seg.takeWhile (· ≠ '=')

/-- Value of one `k=v` query segment (empty when there is no `'='`). -/
def paramValL (seg : List Char) : List Char :=
  match seg.dropWhile (· ≠ '=') with
  | '=' :: v => v
  | _ => []

/-- `url.searchParams.get(key)`: value of the first segment whose key
matches, `none` when the key is absent (percent-decoding not modelled). -/
def getParamL (search key : List Char) : Option (List Char) :=
  (((jsSplitChar '&' search).filter (· ≠ [])).find?
      fun seg => paramKeyL seg = key).map paramValL

/-! ### Reference Normalizer (`parseInput`) and helpers -/

/-- A (host, resource-id) pair; `none` models JS `null`/`undefined`.
`id` is the spec's `resourceId`. -/
structure Ref where
  host : Option String
  id : Option String
  deriving Repr, DecidableEq

/-- The internal link scheme literal. -/
def PEERTUBE_SCHEME : String := "peertube://"

/-- `ensureHttps(host)`: `null` for a falsy host; rewrite a leading
`http://` to `https://` (JS `replace`, first occurrence), keep `https://`,
otherwise prefix `https://`. -/
def ensureHttps (host : String) : Option String :=
  if host = "" then none
  else if jsStartsWith host "http://" || jsStartsWith host "https://" then
    some (jsReplaceFirst host "http://" "https://")
  else some ("https://" ++ host)

/-- The known path templates preceding the id:
`/w/:id`, `/videos/watch/:id`, `/videos/embed/:id`, `/api/v1/videos/:id`. -/
def urlPatterns : List (List (List Char)) :=
  [["w".data],
   ["videos".data, "watch".data],
   ["videos".data, "embed".data],
   ["api".data, "v1".data, "videos".data]]

/-- `parts.findIndex(i => pattern matches contiguously at i)`:
the first index of `parts` where `p` occurs as a contiguous run. -/
def findPatIdx (parts p : List (List Char)) : Option Nat :=
  (List.range parts.length).find? fun i => isPre' p (parts.drop i)
where
  /-- Prefix test for lists of segments. -/
  isPre' : List (List Char) → List (List Char) → Bool
    | [], _ => true
    | _ :: _, [] => false
    | q :: qs, s :: ss => q == s && isPre' qs ss

/-- The pattern loop of `parseInput`: try each template in order; a
template yields the segment following its first occurrence, provided that
segment exists and is truthy; otherwise fall through to the next. -/
def patternId : List (List (List Char)) → List (List Char) → Option (List Char)
  | [], _ => none
  | p :: ps, parts =>
    match findPatIdx parts p with
    | some i =>
      match parts.get? (i + p.length) with
      | some seg => if seg ≠ [] then some seg else patternId ps parts
      | none => patternId ps parts
    | none => patternId ps parts

/-- `parseInput(input)` from `src/lib/index.js`: empty input and inputs
that fail URL parsing yield `{null, null}`; `peertube://host/id[/...]`
is split positionally; otherwise the URL's path segments are matched
against the known templates, falling back to the last path segment. -/
def parseInput (input : String) : Ref :=
  if input = "" then ⟨none, none⟩
  else if jsStartsWith input PEERTUBE_SCHEME then
    let segs := jsSplitChar '/' (input.data.drop PEERTUBE_SCHEME.length)
    ⟨ensureHttps (String.mk (segs.headD [])), (segs.get? 1).map String.mk⟩
  else
    match parseUrlL input.data with
    | none => ⟨none, none⟩
    | some u =>
      let host := ensureHttps (String.mk u.host)
      let parts := (jsSplitChar '/' u.pathname).filter (· ≠ [])
      match patternId urlPatterns parts with
      | some i => ⟨host, some (String.mk i)⟩
      | none =>
        match parts.getLast? with
        | some seg => ⟨host, some (String.mk seg)⟩
        | none => ⟨host, none⟩

/-! ### Post Resolver front end (`extractBastyonPostTx`, `resolveInput`) -/

/-- First truthy value of a JS `a || b || ...` chain over strings
(`undefined`/`null` is `none`, `""` is falsy). -/
def firstTruthyStr : List (Option String) → Option String
  | [] => none
  | some s :: rest => if s = "" then firstTruthyStr rest else some s
  | none :: rest => firstTruthyStr rest

/-- Strip trailing slashes (`.replace(/\/+$/, '')`). -/
def stripTrailingSlashes (l : List Char) : List Char :=
  (l.reverse.dropWhile (· = '/')).reverse

/-- `url.searchParams.get(k)` on a Lean `String` search component. -/
def getParam (search : List Char) (key : String) : Option String :=
  (getParamL search key.data).map String.mk

/-- `extractBastyonPostTx(input)`: `null` unless the URL parses, its
lowercased host ends with `bastyon.com` or `pocketnet.app`, and its path
with trailing slashes stripped is exactly `/post` or `/index`; then the
first truthy of the `s`, `v`, `i` query parameters (else `null`). -/
def extractBastyonPostTx (input : String) : Option String :=
  match parseUrlL input.data with
  | none => none
  | some u =>
    let host := String.mk (u.host.map lowerChar)
    let isBastyon := jsEndsWith host "bastyon.com" || jsEndsWith host "pocketnet.app"
    let p := stripTrailingSlashes u.pathname
    let isAllowedPath := p = "/post".data || p = "/index".data
    if !isBastyon || !isAllowedPath then none
    else firstTruthyStr [getParam u.search "s", getParam u.search "v", getParam u.search "i"]

/-- `resolveInput(input)`: if a Bastyon post transaction id is found,
resolve the post (the remote RPC round-trip is abstracted as the
`postResolve` oracle); otherwise hand the raw input to `parseInput`. -/
def resolveInput (input : String) (postResolve : String → Except String Ref) :
    Except String Ref :=
  match extractBastyonPostTx input with
  | some tx => postResolve tx
  | none => .ok (parseInput input)

/-! ### Name sanitizing and URL extensions -/

/-- The character class removed by `sanitizeName`:
`[\/:*?"<>|\u0000-\u001F]`. -/
def unsafeChar (c : Char) : Bool :=
  c = '/' || c = ':' || c = '*' || c = '?' || c = '"' || c = '<' || c = '>' ||
    c = '|' || decide (c.toNat ≤ 31)

/-- `sanitizeName(name)`: trim; empty trims fall back to `"video"`; replace
each unsafe character by a space; collapse whitespace runs; truncate to 120
characters; trim again. -/
def sanitizeName (name : String) : String :=
  let t := jsTrimL name.data
  let base := if t = [] then "video".data else t
  let replaced := base.map fun c => if unsafeChar c then ' ' else c
  String.mk (jsTrimL ((collapseWs replaced).take 120))

/-- `path.extname` (POSIX) on a pathname: the suffix of the basename from
its last `'.'`, empty when the basename has no `'.'`, only a leading
`'.'`, or is `".."`. -/
def extnameL (p : List Char) : List Char :=
  let b := (p.reverse.takeWhile (· ≠ '/')).reverse
  if b = ['.', '.'] then []
  else
    let afterDot := b.reverse.takeWhile (· ≠ '.')
    if b.length ≤ afterDot.length then []
    else if afterDot.length + 1 = b.length then []
    else '.' :: afterDot.reverse

/-- `urlExt(u)`: lowercased extension of the URL's pathname, `""` when the
URL does not parse or there is no extension. -/
def urlExt (u : String) : String :=
  match parseUrlL u.data with
  | none => ""
  | some url => String.mk ((extnameL url.pathname).map lowerChar)

/-! ### Candidate flattening, scoring and selection -/

/-- Candidate kind tag (audio vs video), assigned at flattening time. -/
inductive CKind where
  | video
  | audio
  deriving Repr, DecidableEq, BEq

/-- A value that JavaScript's `Number()` is applied to in the height
chain: either an actual number (`resolution.id`, `height`) or a label
string (`resolution.label`). -/
inductive JsNum where
  | int (n : Int)
  | str (s : String)
  deriving Repr, DecidableEq

/-- `resolution` sub-object of a file descriptor. -/
structure Resolution where
  id : Option Int := none
  label : Option String := none
  deriving Repr, DecidableEq

/-- One file descriptor as found in the metadata JSON; fields cover the
alternative names probed by `pushFile` (`fileUrl`/`url`/`src`,
`mimeType`/`type`, `size`/`filesize`, `resolution`/`height`).
`tyField` embeds the JS property named `type`. -/
structure FileDesc where
  fileUrl : Option String := none
  url : Option String := none
  src : Option String := none
  mimeType : Option String := none
  tyField : Option String := none
  size : Option Int := none
  filesize : Option Int := none
  resolution : Option Resolution := none
  height : Option Int := none
  fps : Option Int := none
  audioOnly : Bool := false
  deriving Repr, DecidableEq

/-- One streaming playlist entry (`files` plus optional `audioFiles`).
List elements are `Option` to model `null` entries (`if (!f) return`). -/
structure Playlist where
  files : Option (List (Option FileDesc)) := none
  audioFiles : Option (List (Option FileDesc)) := none
  deriving Repr, DecidableEq

/-- The video metadata fields consumed by the core
(`name`/`title`/`uuid` for naming, the three rendition groups). -/
structure VideoMeta where
  name : Option String := none
  title : Option String := none
  uuid : Option String := none
  files : Option (List (Option FileDesc)) := none
  streamingPlaylists : Option (List Playlist) := none
  previewFiles : Option (List (Option FileDesc)) := none
  deriving Repr, DecidableEq

/-- A normalized rendition candidate. -/
structure Candidate where
  kind : CKind
  fileUrl : String
  mimeType : String
  size : Option Int
  height : Option Int
  fps : Option Int
  deriving Repr, DecidableEq

/-- First truthy value of an `a || b || ...` chain over numbers
(`0` is falsy; `NaN` cannot arise for these fields). -/
def firstTruthyInt : List (Option Int) → Option Int
  | [] => none
  | some n :: rest => if n = 0 then firstTruthyInt rest else some n
  | none :: rest => firstTruthyInt rest

/-- `resolution.id || resolution.label` (truthy-first, typed). -/
def resIdOrLabel (r : Resolution) : Option JsNum :=
  match r.id with
  | some n =>
    if n = 0 then
      match r.label with
      | some s => if s = "" then none else some (.str s)
      | none => none
    else some (.int n)
  | none =>
    match r.label with
    | some s => if s = "" then none else some (.str s)
    | none => none

/-- `Number(v)` restricted to the values reaching the height coercion:
numbers map to themselves, strings parse as optionally-signed decimal
integers (`NaN`, i.e. any other label shape, is `none`). -/
def jsNumberVal : JsNum → Option Int
  | .int n => some n
  | .str s => s.toInt?

/-- The height normalization in `pushFile`:
`(f.resolution && (f.resolution.id || f.resolution.label)) || f.height || null`,
then `Number(height) || null`. -/
def candHeightOf (f : FileDesc) : Option Int :=
  let first : Option JsNum :=
    match f.resolution with
    | some r => resIdOrLabel r
    | none => none
  let chained : Option JsNum :=
    match first with
    | some v => some v
    | none =>
      match f.height with
      | some n => if n = 0 then none else some (.int n)
      | none => none
  match chained with
  | none => none
  | some v =>
    match jsNumberVal v with
    | some n => if n = 0 then none else some n
    | none => none

/-- `pushFile(f, kind)` for one non-null descriptor: `none` when no URL
field is truthy, otherwise the normalized candidate. -/
def descToCandidate (kind : CKind) (f : FileDesc) : Option Candidate :=
  match firstTruthyStr [f.fileUrl, f.url, f.src] with
  | none => none
  | some u =>
    some
      { kind := kind
        fileUrl := u
        mimeType := (firstTruthyStr [f.mimeType, f.tyField]).getD ""
        size := firstTruthyInt [f.size, f.filesize]
        height := candHeightOf f
        fps :=
          match f.fps with
          | some n => if n = 0 then none else some n
          | none => none }

/-- `pushFile` mapped over one descriptor list (`null` entries and
descriptors without a URL are dropped, order preserved). -/
def pushList (kindOf : FileDesc → CKind) (fs : List (Option FileDesc)) :
    List Candidate :=
  fs.filterMap fun f? =>
    match f? with
    | none => none
    | some fd => descToCandidate (kindOf fd) fd

/-- The unsorted candidate list: top-level `files` (video), each
playlist's `files` (audio when flagged `audioOnly`) then `audioFiles`
(audio), then `previewFiles` (video). -/
def flattenCandidates (meta : VideoMeta) : List Candidate :=
  (match meta.files with
   | some fs => pushList (fun _ => .video) fs
   | none => []) ++
  (match meta.streamingPlaylists with
   | some pls =>
     pls.flatMap fun pl =>
       (match pl.files with
        | some fs => pushList (fun fd => if fd.audioOnly then .audio else .video) fs
        | none => []) ++
       (match pl.audioFiles with
        | some fs => pushList (fun _ => .audio) fs
        | none => [])
   | none => []) ++
  (match meta.previewFiles with
   | some fs => pushList (fun _ => .video) fs
   | none => [])

/-- `.mp4` container test: URL extension is `.mp4` or the mime type
contains `"mp4"` (`/mp4/.test(...)`). -/
def isMp4C (c : Candidate) : Bool :=
  urlExt c.fileUrl = ".mp4" || hasSub "mp4".data c.mimeType.data

/-- Secure-transport test: the file URL starts with `https://`. -/
def isHttpsC (c : Candidate) : Bool := jsStartsWith c.fileUrl "https://"

/-- `c.height || 0`. -/
def heightOr0 (c : Candidate) : Int := c.height.getD 0

/-- The sort score of `buildCandidates`:
`(isHttps ? 2 : 0) + (isMp4 ? 3 : 0) + (height || 0) / 10000`, as an exact
rational.  (The JS floats involved are small enough that every comparison
made by the sort agrees with exact arithmetic.) -/
def scoreQ (c : Candidate) : ℚ :=
  (if isHttpsC c then 2 else 0) + (if isMp4C c then 3 else 0) +
    (heightOr0 c : ℚ) / 10000

/-- The same score scaled by 10000 as an integer:
`scoreScaled c = 10000 * scoreQ c` (proved below), so comparing scaled
scores is exactly comparing scores.  Used as the executable sort key. -/
def scoreScaled (c : Candidate) : Int :=
  (if isHttpsC c then 20000 else 0) + (if isMp4C c then 30000 else 0) + heightOr0 c

/-- `candidates.sort((a, b) => score(b) - score(a))`: JS
`Array.prototype.sort` with a consistent comparator is exactly the stable
sort by that comparator, which is what `List.insertionSort` computes for
the total preorder "descending score" (the scaled integer score induces
the same preorder as the score itself). -/
def sortCandidates (l : List Candidate) : List Candidate :=
  l.insertionSort fun a b => scoreScaled b ≤ scoreScaled a

/-- `buildCandidates(meta)`. -/
def buildCandidates (meta : VideoMeta) : List Candidate :=
  sortCandidates (flattenCandidates meta)

/-- The `c.height && c.height <= quality` filter (`null` and `0` heights
are falsy). -/
def heightLE (q : Int) (c : Candidate) : Bool :=
  match c.height with
  | some h => h ≠ 0 && decide (h ≤ q)
  | none => false

/-- The `c.height && c.height > quality` filter. -/
def heightGT (q : Int) (c : Candidate) : Bool :=
  match c.height with
  | some h => h ≠ 0 && decide (q < h)
  | none => false

/-- `selectFile(meta, {quality, audioOnly})`: filter by kind; empty list
gives `null`; audio returns the top candidate; a truthy quality first
tries the highest height at or below it, then the lowest height above it;
otherwise the top candidate. -/
def selectFile (meta : VideoMeta) (quality : Option Int) (audioOnly : Bool) :
    Option Candidate :=
  let all := (buildCandidates meta).filter fun c =>
    if audioOnly then c.kind == .audio else c.kind == .video
  if all.length = 0 then none
  else if audioOnly then all.head?
  else
    match quality with
    | some q =>
      if q ≠ 0 then
        let leq := (all.filter (heightLE q)).insertionSort fun a b =>
          heightOr0 b ≤ heightOr0 a
        match leq.head? with
        | some c => some c
        | none =>
          let above := (all.filter (heightGT q)).insertionSort fun a b =>
            heightOr0 a ≤ heightOr0 b
          match above.head? with
          | some c => some c
          | none => all.head?
      else all.head?
    | none => all.head?

/-- `deriveOutputName(meta, chosen)`: sanitized
`meta.name || meta.title || meta.uuid || 'video'` plus the URL extension,
defaulting to `.m4a` for audio and `.mp4` for video. -/
def deriveOutputName (meta : VideoMeta) (chosen : Candidate) : String :=
  let base := sanitizeName ((firstTruthyStr [meta.name, meta.title, meta.uuid]).getD "video")
  let e := urlExt chosen.fileUrl
  base ++ (if e = "" then (if chosen.kind == .audio then ".m4a" else ".mp4") else e)

/-! ### Transfer Engine (`downloadFile`) -/

/-- File contents as a byte list. -/
abbrev Bytes := List Nat

/-- A filesystem: an association list from paths to contents. -/
abbrev FileSys := List (String × Bytes)

/-- Look a path up in the filesystem. -/
def fsFind : FileSys → String → Option Bytes
  | [], _ => none
  | (q, v) :: rest, p => if q = p then some v else fsFind rest p

/-- `fs.rm(path)` (best-effort: absent paths are a no-op). -/
def fsErase (fs : FileSys) (p : String) : FileSys :=
  fs.filter fun e => !(e.1 == p)

/-- Create or overwrite a file. -/
def fsSet (fs : FileSys) (p : String) (v : Bytes) : FileSys :=
  (p, v) :: fsErase fs p

/-- How the response body stream ended: a clean `done`, or an error from
`reader.read()` / `ws.write` after the recorded chunks. -/
inductive StreamEnd where
  | clean
  | errored
  deriving Repr, DecidableEq

/-- One observed `fetch` outcome for a transfer: `r.ok`, body presence,
the `content-length` header, the chunks that were read and written before
the stream ended, and how it ended. -/
structure FetchResp where
  ok : Bool
  hasBody : Bool
  contentLength : Option Nat
  chunks : List Bytes
  ending : StreamEnd
  deriving Repr, DecidableEq

/-- One iteration of the pump: append the chunk to the temporary file and
add its length to the `downloaded` counter. -/
def writeChunk (tmp : String) (st : FileSys × Nat) (c : Bytes) : FileSys × Nat :=
  (fsSet st.1 tmp ((fsFind st.1 tmp).getD [] ++ c), st.2 + c.length)

/-- `downloadFile(url, outPath)` over the filesystem model, driven by one
`FetchResp`.  Returns the final filesystem and `some downloaded` on
success, `none` when the original error is re-raised.  Mirrors the
source: remove a stale `.part`; throw on `!r.ok || !r.body`; create the
temporary file; pump chunks one at a time; on a clean end, `ws.end` then
rename the temporary file onto `outPath`; on any failure, best-effort
remove the temporary file and re-raise. -/
def downloadFile (fs : FileSys) (outPath : String) (resp : FetchResp) :
    FileSys × Option Nat :=
  let tmp := outPath ++ ".part"
  let fs1 := fsErase fs tmp
  if resp.ok && resp.hasBody then
    let fs2 := fsSet fs1 tmp []
    let st := resp.chunks.foldl (writeChunk tmp) (fs2, 0)
    match resp.ending with
    | .clean => (fsSet (fsErase st.1 tmp) outPath ((fsFind st.1 tmp).getD []), some st.2)
    | .errored => (fsErase st.1 tmp, none)
  else (fsErase fs1 tmp, none)

/-- Total number of bytes in a chunk sequence. -/
def sumBytes (chunks : List Bytes) : Nat := (chunks.map List.length).sum

/-! ### Valid hosts and ids for the normalizer theorems -/

/-- Characters of a canonical (lowercase) DNS host name. -/
def hostChar (c : Char) : Bool :=
  decide (c ∈ "abcdefghijklmnopqrstuvwxyz0123456789.-".data)

/-- Characters of a video id (UUID or short id). -/
def idChar (c : Char) : Bool :=
  decide (c ∈ "ABCDEFGHIJKLMNOPQRSTUVWXYZabcdefghijklmnopqrstuvwxyz0123456789_-".data)

/-- A valid host: non-empty, canonical host characters only. -/
def ValidHost (h : String) : Prop := h ≠ "" ∧ ∀ c ∈ h.data, hostChar c = true

/-- A valid id: non-empty, id characters only. -/
def ValidId (i : String) : Prop := i ≠ "" ∧ ∀ c ∈ i.data, idChar c = true

/-! ### Filesystem lemmas -/

theorem fsErase_cons_eq (e : String × Bytes) (rest : FileSys) (p : String)
    (he : e.1 = p) : fsErase (e :: rest) p = fsErase rest p := by
  simp [fsErase, List.filter_cons, he]

theorem fsErase_cons_ne (e : String × Bytes) (rest : FileSys) (p : String)
    (he : ¬e.1 = p) : fsErase (e :: rest) p = e :: fsErase rest p := by
  simp [fsErase, List.filter_cons, he]

theorem fsFind_fsErase_self (fs : FileSys) (p : String) :
    fsFind (fsErase fs p) p = none := by
  induction fs with
  | nil => rfl
  | cons e rest ih =>
    by_cases he : e.1 = p
    · rw [fsErase_cons_eq e rest p he]; exact ih
    · rw [fsErase_cons_ne e rest p he]
      simpa [fsFind, he] using ih

theorem fsFind_fsErase_ne (fs : FileSys) (p q : String) (h : q ≠ p) :
    fsFind (fsErase fs p) q = fsFind fs q := by
  induction fs with
  | nil => rfl
  | cons e rest ih =>
    by_cases he : e.1 = p
    · rw [fsErase_cons_eq e rest p he]
      have hq : ¬e.1 = q := by rw [he]; exact Ne.symm h
      simp only [fsFind, hq, if_false]
      exact ih
    · rw [fsErase_cons_ne e rest p he]
      by_cases hq : e.1 = q
      · simp [fsFind, hq]
      · simp only [fsFind, hq, if_false]
        exact ih

theorem fsFind_fsSet_self (fs : FileSys) (p : String) (v : Bytes) :
    fsFind (fsSet fs p v) p = some v := by
  simp [fsSet, fsFind]

theorem fsFind_fsSet_ne (fs : FileSys) (p q : String) (v : Bytes) (h : q ≠ p) :
    fsFind (fsSet fs p v) q = fsFind fs q := by
  simp [fsSet, fsFind, Ne.symm h, fsFind_fsErase_ne fs p q h]

theorem out_ne_part (out : String) : out ≠ out ++ ".part" := by
  intro h
  have hl := congrArg String.length h
  simp [String.length_append] at hl
  exact absurd hl (by decide)

/-- The pump fold: appends all chunks to the temporary file, leaves every
other path alone, and counts exactly the bytes of the chunks. -/
theorem writeChunks_spec (tmp : String) (chunks : List Bytes) :
    ∀ (fs : FileSys) (n : Nat) (v : Bytes), fsFind fs tmp = some v →
      fsFind (chunks.foldl (writeChunk tmp) (fs, n)).1 tmp = some (v ++ chunks.flatten) ∧
      (∀ p, p ≠ tmp → fsFind (chunks.foldl (writeChunk tmp) (fs, n)).1 p = fsFind fs p) ∧
      (chunks.foldl (writeChunk tmp) (fs, n)).2 = n + sumBytes chunks := by
  induction chunks with
  | nil => intro fs n v hv; simpa [sumBytes] using hv
  | cons c rest ih =>
    intro fs n v hv
    have hstep : fsFind (fsSet fs tmp (v ++ c)) tmp = some (v ++ c) :=
      fsFind_fsSet_self fs tmp (v ++ c)
    have ihc := ih (fsSet fs tmp (v ++ c)) (n + c.length) (v ++ c) hstep
    refine ⟨?_, ?_, ?_⟩
    · simpa [writeChunk, hv] using ihc.1
    · intro p hp
      have := ihc.2.1 p hp
      simpa [writeChunk, hv, fsFind_fsSet_ne fs tmp p (v ++ c) hp] using this
    · simpa [writeChunk, hv, sumBytes, Nat.add_assoc] using ihc.2.2

/-! ### Claim C1, C7, C10: transfer engine -/

/-- C1: every transfer via `downloadFile` that fails at any point (non-ok
status, missing body, or a stream/write error) removes the temporary
`<destinationPath>.part` before the error propagates, and afterwards
neither the destination path nor the `.part` path holds a file, assuming
no file existed at the destination before the call. -/
theorem downloadFile_failure_cleanup (fs : FileSys) (out : String) (resp : FetchResp)
    (hfail : (downloadFile fs out resp).2 = none) :
    fsFind (downloadFile fs out resp).1 (out ++ ".part") = none ∧
    (fsFind fs out = none → fsFind (downloadFile fs out resp).1 out = none) := by
  have hne : out ≠ out ++ ".part" := out_ne_part out
  obtain ⟨ok, hasBody, cl, chunks, ending⟩ := resp
  by_cases hok : (ok && hasBody) = true
  · cases ending with
    | clean => simp [downloadFile, hok] at hfail
    | errored =>
      have htmp0 : fsFind (fsSet (fsErase fs (out ++ ".part")) (out ++ ".part") [])
          (out ++ ".part") = some [] := fsFind_fsSet_self _ _ _
      have hw := writeChunks_spec (out ++ ".part") chunks
        (fsSet (fsErase fs (out ++ ".part")) (out ++ ".part") []) 0 [] htmp0
      have heq : downloadFile fs out ⟨ok, hasBody, cl, chunks, .errored⟩ =
          (fsErase (chunks.foldl (writeChunk (out ++ ".part"))
            (fsSet (fsErase fs (out ++ ".part")) (out ++ ".part") [], 0)).1
            (out ++ ".part"), none) := by
        simp [downloadFile, hok]
      rw [heq]
      constructor
      · exact fsFind_fsErase_self _ _
      · intro hout
        rw [fsFind_fsErase_ne _ _ _ hne, hw.2.1 out hne,
          fsFind_fsSet_ne _ _ _ _ hne, fsFind_fsErase_ne _ _ _ hne]
        exact hout
  · have heq : downloadFile fs out ⟨ok, hasBody, cl, chunks, ending⟩ =
        (fsErase (fsErase fs (out ++ ".part")) (out ++ ".part"), none) := by
      simp [downloadFile, hok]
    rw [heq]
    constructor
    · exact fsFind_fsErase_self _ _
    · intro hout
      rw [fsFind_fsErase_ne _ _ _ hne, fsFind_fsErase_ne _ _ _ hne]
      exact hout

/-- Witness for C1 at a concrete failing transfer (HTTP failure). -/
theorem downloadFile_failure_cleanup_witness :
    fsFind (downloadFile [] "o" ⟨false, true, none, [], .clean⟩).1 ("o" ++ ".part") = none ∧
    (fsFind ([] : FileSys) "o" = none →
      fsFind (downloadFile [] "o" ⟨false, true, none, [], .clean⟩).1 "o" = none) :=
  downloadFile_failure_cleanup [] "o" ⟨false, true, none, [], .clean⟩ (by decide)

/-- C7: every transfer via `downloadFile` that completes successfully
leaves exactly the destination path present (the `.part` temporary was
renamed into place, no `.part` remnant, every other path untouched), with
the downloaded byte count, and the bytes written equal the declared
`content-length` whenever that header was provided (and honoured by the
transport). -/
theorem downloadFile_success (fs : FileSys) (out : String) (resp : FetchResp)
    (hok : resp.ok = true) (hbody : resp.hasBody = true) (hend : resp.ending = .clean) :
    (downloadFile fs out resp).2 = some (sumBytes resp.chunks) ∧
    fsFind (downloadFile fs out resp).1 out = some resp.chunks.flatten ∧
    fsFind (downloadFile fs out resp).1 (out ++ ".part") = none ∧
    (∀ p, p ≠ out → p ≠ out ++ ".part" → fsFind (downloadFile fs out resp).1 p = fsFind fs p) ∧
    (∀ n, resp.contentLength = some n → sumBytes resp.chunks = n →
      (downloadFile fs out resp).2 = some n ∧ resp.chunks.flatten.length = n) := by
  have hne : out ≠ out ++ ".part" := out_ne_part out
  obtain ⟨ok, hasBody, cl, chunks, ending⟩ := resp
  subst hend
  simp only at hok hbody
  subst hok; subst hbody
  have htmp0 : fsFind (fsSet (fsErase fs (out ++ ".part")) (out ++ ".part") [])
      (out ++ ".part") = some [] := fsFind_fsSet_self _ _ _
  have hw := writeChunks_spec (out ++ ".part") chunks
    (fsSet (fsErase fs (out ++ ".part")) (out ++ ".part") []) 0 [] htmp0
  have hdata : fsFind (chunks.foldl (writeChunk (out ++ ".part"))
      (fsSet (fsErase fs (out ++ ".part")) (out ++ ".part") [], 0)).1
      (out ++ ".part") = some chunks.flatten := by
    rw [hw.1]; rfl
  have hcount : (chunks.foldl (writeChunk (out ++ ".part"))
      (fsSet (fsErase fs (out ++ ".part")) (out ++ ".part") [], 0)).2 =
      sumBytes chunks := by
    rw [hw.2.2]; exact Nat.zero_add _
  have heq : downloadFile fs out ⟨true, true, cl, chunks, .clean⟩ =
      (fsSet (fsErase (chunks.foldl (writeChunk (out ++ ".part"))
          (fsSet (fsErase fs (out ++ ".part")) (out ++ ".part") [], 0)).1
          (out ++ ".part")) out chunks.flatten,
        some (sumBytes chunks)) := by
    simp only [downloadFile, Bool.and_self, if_true, hdata, Option.getD_some, hcount]
  rw [heq]
  refine ⟨rfl, fsFind_fsSet_self _ _ _, ?_, ?_, ?_⟩
  · rw [fsFind_fsSet_ne _ _ _ _ (Ne.symm hne)]
    exact fsFind_fsErase_self _ _
  · intro p hpo hpt
    rw [fsFind_fsSet_ne _ _ _ _ hpo, fsFind_fsErase_ne _ _ _ hpt, hw.2.1 p hpt,
      fsFind_fsSet_ne _ _ _ _ hpt, fsFind_fsErase_ne _ _ _ hpt]
  · intro n hcl hsum
    refine ⟨by rw [← hsum], ?_⟩
    rw [List.length_flatten, ← hsum]
    rfl

/-- Witness for C7 at a concrete successful two-chunk transfer with a
matching `content-length`. -/
theorem downloadFile_success_witness :
    (downloadFile [("keep", [7])] "o" ⟨true, true, some 3, [[1], [2, 3]], .clean⟩).2 =
        some (sumBytes [[1], [2, 3]]) ∧
    fsFind (downloadFile [("keep", [7])] "o" ⟨true, true, some 3, [[1], [2, 3]], .clean⟩).1 "o" =
        some ([[1], [2, 3]] : List Bytes).flatten ∧
    fsFind (downloadFile [("keep", [7])] "o" ⟨true, true, some 3, [[1], [2, 3]], .clean⟩).1
        ("o" ++ ".part") = none ∧
    (∀ p, p ≠ "o" → p ≠ "o" ++ ".part" →
      fsFind (downloadFile [("keep", [7])] "o" ⟨true, true, some 3, [[1], [2, 3]], .clean⟩).1 p =
        fsFind [("keep", [7])] p) ∧
    (∀ n, (some 3 : Option Nat) = some n → sumBytes [[1], [2, 3]] = n →
      (downloadFile [("keep", [7])] "o" ⟨true, true, some 3, [[1], [2, 3]], .clean⟩).2 = some n ∧
      ([[1], [2, 3]] : List Bytes).flatten.length = n) :=
  downloadFile_success [("keep", [7])] "o" ⟨true, true, some 3, [[1], [2, 3]], .clean⟩
    rfl rfl rfl

/-- C10: a failing transfer never touches the destination path: the error
path only removes the `.part` temporary, so every path other than the
temporary — in particular a pre-existing destination file — is unchanged. -/
theorem downloadFile_failure_frame (fs : FileSys) (out : String) (resp : FetchResp)
    (hfail : (downloadFile fs out resp).2 = none) :
    (∀ p, p ≠ out ++ ".part" → fsFind (downloadFile fs out resp).1 p = fsFind fs p) ∧
    (∀ v, fsFind fs out = some v → fsFind (downloadFile fs out resp).1 out = some v) := by
  have hne : out ≠ out ++ ".part" := out_ne_part out
  have hframe : ∀ p, p ≠ out ++ ".part" →
      fsFind (downloadFile fs out resp).1 p = fsFind fs p := by
    intro p hpt
    obtain ⟨ok, hasBody, cl, chunks, ending⟩ := resp
    by_cases hok : (ok && hasBody) = true
    · cases ending with
      | clean => simp [downloadFile, hok] at hfail
      | errored =>
        have htmp0 : fsFind (fsSet (fsErase fs (out ++ ".part")) (out ++ ".part") [])
            (out ++ ".part") = some [] := fsFind_fsSet_self _ _ _
        have hw := writeChunks_spec (out ++ ".part") chunks
          (fsSet (fsErase fs (out ++ ".part")) (out ++ ".part") []) 0 [] htmp0
        have heq : downloadFile fs out ⟨ok, hasBody, cl, chunks, .errored⟩ =
            (fsErase (chunks.foldl (writeChunk (out ++ ".part"))
              (fsSet (fsErase fs (out ++ ".part")) (out ++ ".part") [], 0)).1
              (out ++ ".part"), none) := by
          simp [downloadFile, hok]
        rw [heq]
        rw [fsFind_fsErase_ne _ _ _ hpt, hw.2.1 p hpt,
          fsFind_fsSet_ne _ _ _ _ hpt, fsFind_fsErase_ne _ _ _ hpt]
    · have heq : downloadFile fs out ⟨ok, hasBody, cl, chunks, ending⟩ =
          (fsErase (fsErase fs (out ++ ".part")) (out ++ ".part"), none) := by
        simp [downloadFile, hok]
      rw [heq]
      rw [fsFind_fsErase_ne _ _ _ hpt, fsFind_fsErase_ne _ _ _ hpt]
  exact ⟨hframe, fun v hv => by rw [hframe out hne]; exact hv⟩

/-- Witness for C10 at a concrete failing transfer over a pre-existing
destination file. -/
theorem downloadFile_failure_frame_witness :
    (∀ p, p ≠ "o" ++ ".part" →
      fsFind (downloadFile [("o", [7])] "o" ⟨true, true, none, [[1]], .errored⟩).1 p =
        fsFind [("o", [7])] p) ∧
    (∀ v, fsFind [("o", [7])] "o" = some v →
      fsFind (downloadFile [("o", [7])] "o" ⟨true, true, none, [[1]], .errored⟩).1 "o" = some v) :=
  downloadFile_failure_frame [("o", [7])] "o" ⟨true, true, none, [[1]], .errored⟩ (by decide)

/-! ### Claim C9: empty selection -/

/-- C9: whenever the flattened candidate list filtered by the requested
kind is empty, `selectFile` returns `null` (it never throws — the model
is a total function); in particular it returns `null` for metadata with
no candidates at all. -/
theorem selectFile_empty_null :
    (∀ (meta : VideoMeta) (quality : Option Int) (audioOnly : Bool),
      (buildCandidates meta).filter (fun c =>
        if audioOnly then c.kind == CKind.audio else c.kind == CKind.video) = [] →
      selectFile meta quality audioOnly = none) ∧
    (∀ (quality : Option Int) (audioOnly : Bool), selectFile {} quality audioOnly = none) := by
  have h1 : ∀ (meta : VideoMeta) (quality : Option Int) (audioOnly : Bool),
      (buildCandidates meta).filter (fun c =>
        if audioOnly then c.kind == CKind.audio else c.kind == CKind.video) = [] →
      selectFile meta quality audioOnly = none := by
    intro meta quality audioOnly h
    simp [selectFile, h]
  exact ⟨h1, fun quality audioOnly => h1 {} quality audioOnly (by cases audioOnly <;> decide)⟩

/-- Witness for C9 at concrete empty metadata. -/
theorem selectFile_empty_null_witness : selectFile {} none false = none :=
  selectFile_empty_null.2 none false

/-! ### Claim C3: name derivation (corrected) -/

/-- C3 as stated is false on the code: the `'video'` fallback in
`sanitizeName` is applied to the trimmed *original* title, before unsafe
characters are replaced, so a title consisting only of unsafe characters
sanitizes to `""` — not `"video"` — and the derived output name for a
video candidate with no URL extension is `".mp4"`, not `"video.mp4"`. -/
theorem deriveOutputName_unsafe_title_cex :
    sanitizeName "???" = "" ∧
    deriveOutputName { name := some "???" }
      ⟨.video, "https://x/file", "", none, none, none⟩ = ".mp4" ∧
    (".mp4" : String) ≠ "video.mp4" := by
  refine ⟨by decide, by decide, by decide⟩

theorem collapseWsAux_cons_sp_true {d : Char} {cs : List Char} (hd : jsSpace d = true) :
    collapseWsAux true (d :: cs) = collapseWsAux true cs := by
  rw [collapseWsAux, if_pos hd, if_pos rfl]

theorem collapseWsAux_cons_sp_false {d : Char} {cs : List Char} (hd : jsSpace d = true) :
    collapseWsAux false (d :: cs) = ' ' :: collapseWsAux true cs := by
  rw [collapseWsAux, if_pos hd, if_neg (by decide)]

theorem collapseWsAux_cons_nonsp {b : Bool} {d : Char} {cs : List Char}
    (hd : ¬jsSpace d = true) :
    collapseWsAux b (d :: cs) = d :: collapseWsAux false cs := by
  rw [collapseWsAux, if_neg hd]

theorem mem_collapseWsAux {c : Char} :
    ∀ {l : List Char} {b : Bool}, c ∈ collapseWsAux b l → c = ' ' ∨ c ∈ l := by
  intro l
  induction l with
  | nil => intro b h; cases h
  | cons d cs ih =>
    intro b h
    by_cases hd : jsSpace d = true
    · cases b with
      | true =>
        rw [collapseWsAux_cons_sp_true hd] at h
        rcases ih h with h' | h'
        · exact Or.inl h'
        · exact Or.inr (List.mem_cons_of_mem d h')
      | false =>
        rw [collapseWsAux_cons_sp_false hd] at h
        rcases List.mem_cons.mp h with h | h
        · exact Or.inl h
        · rcases ih h with h' | h'
          · exact Or.inl h'
          · exact Or.inr (List.mem_cons_of_mem d h')
    · rw [collapseWsAux_cons_nonsp hd] at h
      rcases List.mem_cons.mp h with h | h
      · exact Or.inr (h ▸ List.mem_cons_self d cs)
      · rcases ih h with h' | h'
        · exact Or.inl h'
        · exact Or.inr (List.mem_cons_of_mem d h')

/-- After a whitespace character has just been consumed, the collapsed
output cannot start with whitespace. -/
theorem collapseWsAux_true_head :
    ∀ (l : List Char) (c : Char), (collapseWsAux true l).head? = some c →
      jsSpace c = false := by
  intro l
  induction l with
  | nil => intro c h; cases h
  | cons d cs ih =>
    intro c h
    by_cases hd : jsSpace d = true
    · rw [collapseWsAux_cons_sp_true hd] at h
      exact ih c h
    · rw [collapseWsAux_cons_nonsp hd] at h
      simp only [List.head?_cons, Option.some.injEq] at h
      rw [← h]
      exact Bool.not_eq_true _ |>.mp hd

/-- Whitespace runs are collapsed: the output of `collapseWsAux` never
has two adjacent whitespace characters. -/
theorem collapseWsAux_chain' :
    ∀ (l : List Char) (b : Bool),
      (collapseWsAux b l).Chain' fun a b => ¬(jsSpace a = true ∧ jsSpace b = true) := by
  intro l
  induction l with
  | nil => intro b; exact List.chain'_nil
  | cons d cs ih =>
    intro b
    by_cases hd : jsSpace d = true
    · cases b with
      | true =>
        rw [collapseWsAux_cons_sp_true hd]
        exact ih true
      | false =>
        rw [collapseWsAux_cons_sp_false hd, List.chain'_cons']
        refine ⟨?_, ih true⟩
        intro y hy
        have := collapseWsAux_true_head cs y hy
        simp [this]
    · rw [collapseWsAux_cons_nonsp hd, List.chain'_cons']
      exact ⟨fun y _ => fun hc => hd hc.1, ih false⟩

theorem jsTrimL_sublist (l : List Char) : (jsTrimL l).Sublist l := by
  have h1 : (l.dropWhile jsSpace).Sublist l := List.dropWhile_sublist _
  have h2 : ((l.dropWhile jsSpace).reverse.dropWhile jsSpace).Sublist
      (l.dropWhile jsSpace).reverse := List.dropWhile_sublist _
  have h3 := h2.reverse
  rw [List.reverse_reverse] at h3
  exact h3.trans h1

theorem jsTrimL_chain' {R : Char → Char → Prop}
    {l : List Char} (h : l.Chain' R) : (jsTrimL l).Chain' R := by
  have h1 : (l.dropWhile jsSpace).Chain' R :=
    h.suffix (List.dropWhile_suffix _)
  have h2 : ((l.dropWhile jsSpace).reverse).Chain' (flip R) :=
    List.chain'_reverse.mpr (by exact h1)
  have h3 : ((l.dropWhile jsSpace).reverse.dropWhile jsSpace).Chain' (flip R) :=
    h2.suffix (List.dropWhile_suffix _)
  exact List.chain'_reverse.mpr h3

/-- C3 (amended): `sanitizeName` replaces the unsafe characters
`/ : * ? " < > |` and control characters with spaces, collapses
whitespace runs, truncates to 120 characters, and trims; the `"video"`
fallback applies exactly to titles that trim to empty before stripping;
consequently a title of only unsafe characters yields an empty base name
and a video candidate with no URL extension yields `".mp4"`. -/
theorem sanitizeName_spec :
    (∀ name : String, (sanitizeName name).length ≤ 120) ∧
    (∀ name : String, ∀ c ∈ (sanitizeName name).data, unsafeChar c = false) ∧
    (∀ name : String, (sanitizeName name).data.Chain'
        fun a b => ¬(jsSpace a = true ∧ jsSpace b = true)) ∧
    (∀ name : String, jsTrimL name.data = [] → sanitizeName name = "video") ∧
    deriveOutputName { name := some "???" }
      ⟨CKind.video, "https://x/file", "", none, none, none⟩ = ".mp4" := by
  refine ⟨?_, ?_, ?_, ?_, by decide⟩
  · intro name
    show (jsTrimL (((collapseWs _).take 120))).length ≤ 120
    calc (jsTrimL ((collapseWs _).take 120)).length
        ≤ ((collapseWs _).take 120).length := (jsTrimL_sublist _).length_le
      _ ≤ 120 := List.length_take_le 120 _
  · intro name c hc
    have hc1 : c ∈ (collapseWs ((if jsTrimL name.data = [] then "video".data
        else jsTrimL name.data).map fun c => if unsafeChar c then ' ' else c)).take 120 :=
      (jsTrimL_sublist _).mem hc
    have hc2 := List.take_subset _ _ hc1
    rcases mem_collapseWsAux hc2 with h | h
    · rw [h]; decide
    · rcases List.mem_map.mp h with ⟨a, _, ha⟩
      by_cases hu : unsafeChar a = true
      · rw [← ha, if_pos hu]; decide
      · rw [← ha, if_neg hu]; simpa using hu
  · intro name
    exact jsTrimL_chain' ((collapseWsAux_chain' _ false).take 120)
  · intro name h
    show String.mk (jsTrimL ((collapseWs ((if jsTrimL name.data = [] then "video".data
        else jsTrimL name.data).map fun c => if unsafeChar c then ' ' else c)).take 120)) = "video"
    rw [if_pos h]
    decide

/-- Witness for C3's amended claim at concrete titles. -/
theorem sanitizeName_spec_witness :
    (sanitizeName "a:b   c").length ≤ 120 ∧ sanitizeName "  " = "video" :=
  ⟨sanitizeName_spec.1 "a:b   c", sanitizeName_spec.2.2.2.1 "  " (by decide)⟩

/-! ### Head of a stable sort -/

/-- The head of a stable sort under a total preorder `r` is the first
element of the input that is `r`-below every element (for "descending by
key" orders this is exactly the first element of maximal key, matching
the tie-breaking of a stable sort). -/
theorem head_insertionSort_spec {α : Type} (r : α → α → Prop) [DecidableRel r]
    (htrans : ∀ a b c, r a b → r b c → r a c) (htotal : ∀ a b, r a b ∨ r b a)
    {l : List α} {c : α} (h : (l.insertionSort r).head? = some c) :
    c ∈ l ∧ (∀ d ∈ l, r c d) ∧ l.find? (fun d => decide (r d c)) = some c := by
  have hperm := List.perm_insertionSort r l
  haveI : IsTotal α r := ⟨htotal⟩
  haveI : IsTrans α r := ⟨htrans⟩
  have hsorted := List.sorted_insertionSort r l
  obtain ⟨t, hs⟩ : ∃ t, l.insertionSort r = c :: t := by
    cases hsort : l.insertionSort r with
    | nil => rw [hsort] at h; cases h
    | cons a t =>
      rw [hsort] at h
      simp only [List.head?_cons, Option.some.injEq] at h
      exact ⟨t, by rw [← h]⟩
  rw [hs] at hperm hsorted
  have hrcc : r c c := by rcases htotal c c with h' | h' <;> exact h'
  have hmem : c ∈ l := hperm.subset (List.mem_cons_self c t)
  have hmax : ∀ d ∈ l, r c d := by
    intro d hd
    rcases List.mem_cons.mp (hperm.symm.subset hd) with h' | h'
    · exact h' ▸ hrcc
    · exact (List.sorted_cons.mp hsorted).1 d h'
  refine ⟨hmem, hmax, ?_⟩
  have hfilter : l.find? (fun d => decide (r d c)) =
      (l.filter (fun d => decide (r d c))).head? :=
    (List.filter_head? _ l).symm
  rw [hfilter]
  have hpair : (l.filter (fun d => decide (r d c))).Pairwise r := by
    apply List.pairwise_of_forall_mem_list
    intro a ha b hb
    have hac : r a c := of_decide_eq_true (List.mem_filter.mp ha).2
    have hcb : r c b := hmax b (List.mem_filter.mp hb).1
    exact htrans a c b hac hcb
  have hsub : (l.filter (fun d => decide (r d c))).Sublist (c :: t) := by
    rw [← hs]
    exact List.sublist_insertionSort hpair (List.filter_sublist l)
  have hflen : List.countP (fun d => decide (r d c)) l =
      (l.filter (fun d => decide (r d c))).length :=
    List.countP_eq_length_filter _ l
  cases hF : l.filter (fun d => decide (r d c)) with
  | nil =>
    exfalso
    have : c ∈ l.filter (fun d => decide (r d c)) :=
      List.mem_filter.mpr ⟨hmem, decide_eq_true hrcc⟩
    rw [hF] at this
    cases this
  | cons f0 ftail =>
    rw [hF] at hsub
    cases hsub with
    | cons₂ _ h' => rfl
    | cons _ h' =>
      exfalso
      have hcount1 : List.countP (fun d => decide (r d c)) (c :: t) =
          List.countP (fun d => decide (r d c)) l := (hperm.countP_eq _)
      have hcount2 : List.countP (fun d => decide (r d c)) (f0 :: ftail) ≤
          List.countP (fun d => decide (r d c)) t := h'.countP_le _
      have hallF : List.countP (fun d => decide (r d c)) (f0 :: ftail) =
          (f0 :: ftail).length := by
        apply List.countP_eq_length.mpr
        intro a ha
        rw [← hF] at ha
        exact (List.mem_filter.mp ha).2
      rw [List.countP_cons, if_pos (decide_eq_true hrcc)] at hcount1
      rw [hflen, hF] at hcount1
      rw [hallF] at hcount2
      omega


/-! ### Claim C2: max-height selection policy -/

/-- Definitional unfolding of `selectFile` for `audioOnly = false` and an
explicit quality. -/
theorem selectFile_false_unfold (meta : VideoMeta) (q : Int) :
    selectFile meta (some q) false =
      (if ((buildCandidates meta).filter (fun c => c.kind == CKind.video)).length = 0 then none
       else if q ≠ 0 then
         match ((((buildCandidates meta).filter (fun c => c.kind == CKind.video)).filter
             (heightLE q)).insertionSort fun a b => heightOr0 b ≤ heightOr0 a).head? with
         | some c => some c
         | none =>
           match ((((buildCandidates meta).filter (fun c => c.kind == CKind.video)).filter
               (heightGT q)).insertionSort fun a b => heightOr0 a ≤ heightOr0 b).head? with
           | some c => some c
           | none => ((buildCandidates meta).filter (fun c => c.kind == CKind.video)).head?
       else ((buildCandidates meta).filter (fun c => c.kind == CKind.video)).head?) := rfl

/-- C2: with a max-height constraint (nonzero quality, `audioOnly` unset),
`selectFile` picks, among video candidates of truthy height at most the
constraint, the first in pre-existing score order of greatest height; if
none qualify, the first of smallest height strictly above the constraint;
if still none, the top-scored candidate overall; and over heights
`[1080, 720, 480]`, `[480, 360]`, `[1080, 1440]` with constraint 720 it
returns the 720, 480 and 1080 candidates respectively. -/
theorem selectFile_maxHeight_policy :
    (∀ (meta : VideoMeta) (q : Int), q ≠ 0 →
      ∀ (leq : List Candidate),
        leq = ((buildCandidates meta).filter (fun c => c.kind == CKind.video)).filter
          (heightLE q) →
        leq ≠ [] →
        ∃ c, selectFile meta (some q) false = some c ∧ c ∈ leq ∧
          (∀ d ∈ leq, heightOr0 d ≤ heightOr0 c) ∧
          leq.find? (fun d => decide (heightOr0 c ≤ heightOr0 d)) = some c) ∧
    (∀ (meta : VideoMeta) (q : Int), q ≠ 0 →
      ∀ (leq above : List Candidate),
        leq = ((buildCandidates meta).filter (fun c => c.kind == CKind.video)).filter
          (heightLE q) →
        above = ((buildCandidates meta).filter (fun c => c.kind == CKind.video)).filter
          (heightGT q) →
        leq = [] → above ≠ [] →
        ∃ c, selectFile meta (some q) false = some c ∧ c ∈ above ∧
          (∀ d ∈ above, heightOr0 c ≤ heightOr0 d) ∧
          above.find? (fun d => decide (heightOr0 d ≤ heightOr0 c)) = some c) ∧
    (∀ (meta : VideoMeta) (q : Int), q ≠ 0 →
      ((buildCandidates meta).filter (fun c => c.kind == CKind.video)).filter (heightLE q) = [] →
      ((buildCandidates meta).filter (fun c => c.kind == CKind.video)).filter (heightGT q) = [] →
      selectFile meta (some q) false =
        ((buildCandidates meta).filter (fun c => c.kind == CKind.video)).head?) ∧
    selectFile { files := some [some { fileUrl := some "https://h/v1080.mp4", height := some 1080 },
        some { fileUrl := some "https://h/v720.mp4", height := some 720 },
        some { fileUrl := some "https://h/v480.mp4", height := some 480 }] } (some 720) false =
      some ⟨CKind.video, "https://h/v720.mp4", "", none, some 720, none⟩ ∧
    selectFile { files := some [some { fileUrl := some "https://h/v480.mp4", height := some 480 },
        some { fileUrl := some "https://h/v360.mp4", height := some 360 }] } (some 720) false =
      some ⟨CKind.video, "https://h/v480.mp4", "", none, some 480, none⟩ ∧
    selectFile { files := some [some { fileUrl := some "https://h/v1080.mp4", height := some 1080 },
        some { fileUrl := some "https://h/v1440.mp4", height := some 1440 }] } (some 720) false =
      some ⟨CKind.video, "https://h/v1080.mp4", "", none, some 1080, none⟩ := by
  refine ⟨?_, ?_, ?_, by decide, by decide, by decide⟩
  · intro meta q hq leq hleqdef hne
    obtain ⟨c, hc⟩ : ∃ c,
        (leq.insertionSort fun a b => heightOr0 b ≤ heightOr0 a).head? = some c := by
      cases hsrt : leq.insertionSort fun a b => heightOr0 b ≤ heightOr0 a with
      | nil =>
        exfalso
        have hlen := (List.perm_insertionSort (fun a b => heightOr0 b ≤ heightOr0 a) leq).length_eq
        rw [hsrt] at hlen
        exact hne (List.length_eq_zero.mp hlen.symm)
      | cons a t => exact ⟨a, rfl⟩
    have hspec := head_insertionSort_spec (fun a b => heightOr0 b ≤ heightOr0 a)
      (fun a b c hab hbc => le_trans hbc hab) (fun a b => le_total (heightOr0 b) (heightOr0 a)) hc
    have hvne : ¬((buildCandidates meta).filter (fun c => c.kind == CKind.video)).length = 0 := by
      intro h0
      rw [List.length_eq_zero.mp h0] at hleqdef
      rw [hleqdef] at hne
      exact hne rfl
    refine ⟨c, ?_, hspec.1, hspec.2.1, hspec.2.2⟩
    rw [selectFile_false_unfold, if_neg hvne, if_pos hq, ← hleqdef, hc]
  · intro meta q hq leq above hleqdef habovedef hleqnil hne
    obtain ⟨c, hc⟩ : ∃ c,
        (above.insertionSort fun a b => heightOr0 a ≤ heightOr0 b).head? = some c := by
      cases hsrt : above.insertionSort fun a b => heightOr0 a ≤ heightOr0 b with
      | nil =>
        exfalso
        have hlen := (List.perm_insertionSort (fun a b => heightOr0 a ≤ heightOr0 b) above).length_eq
        rw [hsrt] at hlen
        exact hne (List.length_eq_zero.mp hlen.symm)
      | cons a t => exact ⟨a, rfl⟩
    have hspec := head_insertionSort_spec (fun a b => heightOr0 a ≤ heightOr0 b)
      (fun a b c hab hbc => le_trans hab hbc) (fun a b => le_total (heightOr0 a) (heightOr0 b)) hc
    have hvne : ¬((buildCandidates meta).filter (fun c => c.kind == CKind.video)).length = 0 := by
      intro h0
      rw [List.length_eq_zero.mp h0] at habovedef
      rw [habovedef] at hne
      exact hne rfl
    refine ⟨c, ?_, hspec.1, hspec.2.1, hspec.2.2⟩
    rw [selectFile_false_unfold, if_neg hvne, if_pos hq, ← hleqdef, hleqnil]
    rw [show (([] : List Candidate).insertionSort fun a b =>
      heightOr0 b ≤ heightOr0 a) = [] from rfl]
    rw [show (([] : List Candidate).head?) = none from rfl, ← habovedef, hc]
  · intro meta q hq hleqnil habovenil
    by_cases hvz : ((buildCandidates meta).filter (fun c => c.kind == CKind.video)).length = 0
    · rw [selectFile_false_unfold, if_pos hvz, List.length_eq_zero.mp hvz]
      rfl
    · rw [selectFile_false_unfold, if_neg hvz, if_pos hq, hleqnil, habovenil]
      rfl

/-- Witness for C2 at the concrete `[1080, 720, 480]` metadata with
constraint 720. -/
theorem selectFile_maxHeight_policy_witness :
    ∃ c, selectFile { files := some [
        some { fileUrl := some "https://h/v1080.mp4", height := some 1080 },
        some { fileUrl := some "https://h/v720.mp4", height := some 720 },
        some { fileUrl := some "https://h/v480.mp4", height := some 480 }] }
        (some 720) false = some c ∧
      c ∈ ((buildCandidates { files := some [
        some { fileUrl := some "https://h/v1080.mp4", height := some 1080 },
        some { fileUrl := some "https://h/v720.mp4", height := some 720 },
        some { fileUrl := some "https://h/v480.mp4", height := some 480 }] }).filter
          (fun c => c.kind == CKind.video)).filter (heightLE 720) ∧
      (∀ d ∈ ((buildCandidates { files := some [
        some { fileUrl := some "https://h/v1080.mp4", height := some 1080 },
        some { fileUrl := some "https://h/v720.mp4", height := some 720 },
        some { fileUrl := some "https://h/v480.mp4", height := some 480 }] }).filter
          (fun c => c.kind == CKind.video)).filter (heightLE 720),
        heightOr0 d ≤ heightOr0 c) ∧
      (((buildCandidates { files := some [
        some { fileUrl := some "https://h/v1080.mp4", height := some 1080 },
        some { fileUrl := some "https://h/v720.mp4", height := some 720 },
        some { fileUrl := some "https://h/v480.mp4", height := some 480 }] }).filter
          (fun c => c.kind == CKind.video)).filter (heightLE 720)).find?
        (fun d => decide (heightOr0 c ≤ heightOr0 d)) = some c :=
  selectFile_maxHeight_policy.1
    { files := some [
        some { fileUrl := some "https://h/v1080.mp4", height := some 1080 },
        some { fileUrl := some "https://h/v720.mp4", height := some 720 },
        some { fileUrl := some "https://h/v480.mp4", height := some 480 }] }
    720 (by decide) _ rfl (by decide)

/-! ### Claim C6: scoring -/

theorem isPre_append_self : ∀ (p x : List Char), isPre p (p ++ x) = true := by
  intro p x
  induction p with
  | nil => rfl
  | cons c cs ih => simp [isPre, ih]

theorem scoreQ_eq_scaled (c : Candidate) : scoreQ c = (scoreScaled c : ℚ) / 10000 := by
  unfold scoreQ scoreScaled
  by_cases h1 : isHttpsC c <;> by_cases h2 : isMp4C c <;>
    simp only [h1, h2, if_true, if_false] <;> push_cast <;> ring

theorem scoreQ_le_iff (c d : Candidate) :
    scoreQ c ≤ scoreQ d ↔ scoreScaled c ≤ scoreScaled d := by
  rw [scoreQ_eq_scaled, scoreQ_eq_scaled,
    div_le_div_iff_of_pos_right (by norm_num : (0:ℚ) < 10000)]
  exact_mod_cast Iff.rfl

theorem parseUrlL_https (r : String) :
    parseUrlL ("https://" ++ r).data = specialTail "https".data ('/' :: '/' :: r.data) := rfl

theorem parseUrlL_http (r : String) :
    parseUrlL ("http://" ++ r).data = specialTail "http".data ('/' :: '/' :: r.data) := rfl

/-- `specialTail` computes host, pathname and query from the post-scheme
remainder only; the scheme argument is just recorded. -/
theorem specialTail_pathname (s1 s2 x : List Char) :
    (specialTail s1 x).map JsUrl.pathname = (specialTail s2 x).map JsUrl.pathname := by
  simp only [specialTail]
  by_cases hh : (afterLastAt ((x.dropWhile fun c => c = '/' || c = '\\').takeWhile
      authChar)).map lowerChar = []
  · rw [if_pos hh, if_pos hh]
  · rw [if_neg hh, if_neg hh]
    rfl

/-- Swapping `https://` for `http://` leaves the parsed pathname (and
hence the URL extension) unchanged. -/
theorem urlExt_scheme_swap (r : String) :
    urlExt ("https://" ++ r) = urlExt ("http://" ++ r) := by
  simp only [urlExt, parseUrlL_https, parseUrlL_http]
  have := specialTail_pathname "https".data "http".data ('/' :: '/' :: r.data)
  cases h1 : specialTail "https".data ('/' :: '/' :: r.data) with
  | none =>
    rw [h1] at this
    cases h2 : specialTail "http".data ('/' :: '/' :: r.data) with
    | none => rfl
    | some u => rw [h2] at this; cases this
  | some u =>
    rw [h1] at this
    cases h2 : specialTail "http".data ('/' :: '/' :: r.data) with
    | none => rw [h2] at this; cases this
    | some v =>
      rw [h2] at this
      simp only [Option.map_some', Option.some.injEq] at this
      show String.mk (List.map lowerChar (extnameL u.pathname)) =
        String.mk (List.map lowerChar (extnameL v.pathname))
      rw [this]

/-- C6: candidate scoring is the descending sort key with weight 2 for a
secure-transport URL, weight 3 for an `.mp4` extension or `mp4` mime
match, and `height/10000` as fractional tie-breaker; the sorted candidate
list is descending in this score; and two candidates differing only in
transport security score exactly 2 apart, so the secure one always sorts
strictly before the insecure one. -/
theorem score_secure_sorts_first :
    (∀ c : Candidate, scoreQ c =
      (if isHttpsC c then 2 else 0) + (if isMp4C c then 3 else 0) +
        (heightOr0 c : ℚ) / 10000) ∧
    (∀ l : List Candidate, (sortCandidates l).Pairwise fun a b => scoreQ b ≤ scoreQ a) ∧
    (∀ (r : String) (c1 c2 : Candidate),
      c1.fileUrl = "https://" ++ r → c2.fileUrl = "http://" ++ r →
      c1.mimeType = c2.mimeType → c1.height = c2.height →
      scoreQ c1 = scoreQ c2 + 2 ∧
      ∀ (l : List Candidate) (i j : Nat) (hi : i < (sortCandidates l).length)
        (hj : j < (sortCandidates l).length),
        (sortCandidates l).get ⟨i, hi⟩ = c1 → (sortCandidates l).get ⟨j, hj⟩ = c2 →
        i < j) := by
  haveI : IsTotal Candidate (fun a b => scoreScaled b ≤ scoreScaled a) :=
    ⟨fun a b => le_total (scoreScaled b) (scoreScaled a)⟩
  haveI : IsTrans Candidate (fun a b => scoreScaled b ≤ scoreScaled a) :=
    ⟨fun a b c hab hbc => le_trans hbc hab⟩
  have hpw : ∀ l : List Candidate,
      (sortCandidates l).Pairwise fun a b => scoreQ b ≤ scoreQ a := by
    intro l
    exact (List.sorted_insertionSort _ l).imp fun hab => (scoreQ_le_iff _ _).mpr hab
  refine ⟨fun c => rfl, hpw, ?_⟩
  intro r c1 c2 hf1 hf2 hm hh
  have h1 : isHttpsC c1 = true := by
    simp only [isHttpsC, jsStartsWith, hf1, String.data_append]
    exact isPre_append_self _ _
  have h2 : isHttpsC c2 = false := by
    simp only [isHttpsC, jsStartsWith, hf2, String.data_append]
    rfl
  have h4 : isMp4C c1 = isMp4C c2 := by
    simp only [isMp4C, hf1, hf2, hm, urlExt_scheme_swap]
  have h5 : heightOr0 c1 = heightOr0 c2 := by
    simp only [heightOr0, hh]
  have hdiff : scoreQ c1 = scoreQ c2 + 2 := by
    simp only [scoreQ, h1, h2, h4, h5, Bool.false_eq_true, if_false, if_true]
    ring
  refine ⟨hdiff, ?_⟩
  intro l i j hi hj hgi hgj
  have hne : c1 ≠ c2 := by
    intro he
    have hfu : c1.fileUrl = c2.fileUrl := by rw [he]
    rw [hf1, hf2] at hfu
    have hlen := congrArg String.length hfu
    rw [String.length_append, String.length_append] at hlen
    have h8 : ("https://" : String).length = 8 := rfl
    have h7 : ("http://" : String).length = 7 := rfl
    rw [h8, h7] at hlen
    omega
  rcases Nat.lt_trichotomy i j with hlt | heq | hgt
  · exact hlt
  · exfalso
    apply hne
    rw [← hgi, ← hgj]
    simp [heq]
  · exfalso
    have hp := (List.pairwise_iff_getElem.mp (hpw l)) j i hj hi hgt
    rw [show (sortCandidates l)[i] = (sortCandidates l).get ⟨i, hi⟩ from rfl,
      show (sortCandidates l)[j] = (sortCandidates l).get ⟨j, hj⟩ from rfl] at hp
    rw [hgi, hgj] at hp
    rw [hdiff] at hp
    linarith

/-- Witness for C6 at two concrete candidates differing only in scheme. -/
theorem score_secure_sorts_first_witness :
    scoreQ ⟨CKind.video, "https://h/v.mp4", "", none, none, none⟩ =
      scoreQ ⟨CKind.video, "http://h/v.mp4", "", none, none, none⟩ + 2 ∧
    (0 : Nat) < 1 := by
  have h := score_secure_sorts_first.2.2 "h/v.mp4"
    ⟨CKind.video, "https://h/v.mp4", "", none, none, none⟩
    ⟨CKind.video, "http://h/v.mp4", "", none, none, none⟩ rfl rfl rfl rfl
  refine ⟨h.1, ?_⟩
  exact h.2 [⟨CKind.video, "http://h/v.mp4", "", none, none, none⟩,
      ⟨CKind.video, "https://h/v.mp4", "", none, none, none⟩]
    0 1 (by decide) (by decide) (by decide) (by decide)

/-! ### Character-class facts and split/takeWhile lemmas -/

theorem hostChar_spec : ∀ c ∈ "abcdefghijklmnopqrstuvwxyz0123456789.-".data,
    authChar c = true ∧ lowerChar c = c ∧ c ≠ '/' ∧ c ≠ '\\' ∧ c ≠ '@' ∧ c ≠ ':' := by
  decide

theorem idChar_spec :
    ∀ c ∈ "ABCDEFGHIJKLMNOPQRSTUVWXYZabcdefghijklmnopqrstuvwxyz0123456789_-".data,
    authChar c = true ∧ c ≠ '/' ∧ c ≠ '?' ∧ c ≠ '#' ∧ c ≠ '=' ∧ c ≠ '&' := by
  decide

theorem hostChar_of {c : Char} (h : hostChar c = true) :
    authChar c = true ∧ lowerChar c = c ∧ c ≠ '/' ∧ c ≠ '\\' ∧ c ≠ '@' ∧ c ≠ ':' :=
  hostChar_spec c (of_decide_eq_true h)

theorem idChar_of {c : Char} (h : idChar c = true) :
    authChar c = true ∧ c ≠ '/' ∧ c ≠ '?' ∧ c ≠ '#' ∧ c ≠ '=' ∧ c ≠ '&' :=
  idChar_spec c (of_decide_eq_true h)

theorem takeWhile_append_all {p : Char → Bool} :
    ∀ {xs : List Char} (ys : List Char), (∀ c ∈ xs, p c = true) →
      (xs ++ ys).takeWhile p = xs ++ ys.takeWhile p := by
  intro xs
  induction xs with
  | nil => intro ys _; rfl
  | cons a t ih =>
    intro ys h
    rw [List.cons_append, List.takeWhile_cons, if_pos (h a (List.mem_cons_self a t)),
      ih ys fun c hc => h c (List.mem_cons_of_mem a hc), List.cons_append]

theorem dropWhile_append_all {p : Char → Bool} :
    ∀ {xs : List Char} (ys : List Char), (∀ c ∈ xs, p c = true) →
      (xs ++ ys).dropWhile p = ys.dropWhile p := by
  intro xs
  induction xs with
  | nil => intro ys _; rfl
  | cons a t ih =>
    intro ys h
    rw [List.cons_append, List.dropWhile_cons, if_pos (h a (List.mem_cons_self a t)),
      ih ys fun c hc => h c (List.mem_cons_of_mem a hc)]

theorem takeWhile_all_eq {p : Char → Bool} {xs : List Char}
    (h : ∀ c ∈ xs, p c = true) : xs.takeWhile p = xs := by
  have := @takeWhile_append_all p xs [] h
  simpa using this

theorem jsSplitChar_cons_eq (sep c : Char) (cs seg : List Char)
    (rest : List (List Char)) (h : jsSplitChar sep cs = seg :: rest) :
    jsSplitChar sep (c :: cs) =
      if c = sep then [] :: seg :: rest else (c :: seg) :: rest := by
  rw [jsSplitChar, h]

theorem jsSplitChar_ne_nil (sep : Char) : ∀ (l : List Char), jsSplitChar sep l ≠ [] := by
  intro l
  induction l with
  | nil => intro h; cases h
  | cons c cs ih =>
    obtain ⟨seg, rest, hsr⟩ : ∃ seg rest, jsSplitChar sep cs = seg :: rest := by
      cases hy : jsSplitChar sep cs with
      | nil => exact absurd hy ih
      | cons a b => exact ⟨a, b, rfl⟩
    rw [jsSplitChar_cons_eq sep c cs seg rest hsr]
    by_cases hc : c = sep
    · rw [if_pos hc]; intro hcon; cases hcon
    · rw [if_neg hc]; intro hcon; cases hcon

theorem jsSplitChar_not_mem {sep : Char} : ∀ {xs : List Char}, sep ∉ xs →
    jsSplitChar sep xs = [xs] := by
  intro xs
  induction xs with
  | nil => intro _; rfl
  | cons c cs ih =>
    intro h
    have hcs : jsSplitChar sep cs = [cs] := ih fun hc => h (List.mem_cons_of_mem c hc)
    rw [jsSplitChar_cons_eq sep c cs cs [] hcs,
      if_neg fun he => h (by rw [he]; exact List.mem_cons_self sep cs)]

theorem jsSplitChar_append {sep : Char} : ∀ {xs : List Char} (ys : List Char), sep ∉ xs →
    jsSplitChar sep (xs ++ sep :: ys) = xs :: jsSplitChar sep ys := by
  intro xs
  induction xs with
  | nil =>
    intro ys _
    obtain ⟨seg, rest, hsr⟩ : ∃ seg rest, jsSplitChar sep ys = seg :: rest := by
      cases hy : jsSplitChar sep ys with
      | nil => exact absurd hy (jsSplitChar_ne_nil sep ys)
      | cons a b => exact ⟨a, b, rfl⟩
    rw [List.nil_append, jsSplitChar_cons_eq sep sep ys seg rest hsr, if_pos rfl, ← hsr]
  | cons c cs ih =>
    intro ys h
    have hcs : sep ∉ cs := fun hc => h (List.mem_cons_of_mem c hc)
    have hcne : ¬c = sep := fun he => h (by rw [he]; exact List.mem_cons_self sep cs)
    rw [List.cons_append,
      jsSplitChar_cons_eq sep c (cs ++ sep :: ys) cs (jsSplitChar sep ys) (ih ys hcs),
      if_neg hcne]

theorem afterLastAt_all {l : List Char} (h : '@' ∉ l) : afterLastAt l = l := by
  unfold afterLastAt
  rw [@takeWhile_all_eq (fun x => decide (x ≠ '@')) _ fun c hc =>
    decide_eq_true fun he => h (by rw [← he]; exact List.mem_reverse.mp hc)]
  exact List.reverse_reverse l

theorem map_lowerChar_id {l : List Char} (h : ∀ c ∈ l, hostChar c = true) :
    l.map lowerChar = l := by
  rw [List.map_congr_left fun c hc => (hostChar_of (h c hc)).2.1.trans rfl]
  exact List.map_id l

theorem isPre_mem : ∀ {p l : List Char}, isPre p l = true → ∀ c ∈ p, c ∈ l := by
  intro p
  induction p with
  | nil => intro l _ c hc; cases hc
  | cons a ps ih =>
    intro l h c hc
    cases l with
    | nil => simp [isPre] at h
    | cons d ls =>
      rw [isPre, Bool.and_eq_true] at h
      rcases List.mem_cons.mp hc with h' | h'
      · rw [h', eq_of_beq h.1]
        exact List.mem_cons_self d ls
      · exact List.mem_cons_of_mem d (ih h.2 c h')

theorem ensureHttps_valid {h : String} (h1 : h ≠ "")
    (h2 : ∀ c ∈ h.data, hostChar c = true) :
    ensureHttps h = some ("https://" ++ h) := by
  have hx : ∀ pre : String, ':' ∈ pre.data → jsStartsWith h pre = false := by
    intro pre hc
    by_contra hb
    have hb' : isPre pre.data h.data = true := by
      have := Bool.not_eq_false (jsStartsWith h pre) |>.mp hb
      exact this
    have := h2 ':' (isPre_mem hb' ':' hc)
    exact absurd this (by decide)
  unfold ensureHttps
  rw [if_neg h1, if_neg (by rw [hx "http://" (by decide), hx "https://" (by decide)]; decide)]

/-! ### Claim C5: the normalizer never throws -/

/-- C5: `parseInput` is a total function (never throws); empty input and
inputs that fail URL parsing yield an unresolved Reference with both
fields null; and a parseable URL (outside the internal scheme) whose path
has no non-empty segments yields the secured host with a null id. -/
theorem parseInput_total_unresolved :
    parseInput "" = ⟨none, none⟩ ∧
    (∀ s : String, jsStartsWith s PEERTUBE_SCHEME = false → parseUrl s = none →
      parseInput s = ⟨none, none⟩) ∧
    (∀ (s : String) (u : JsUrl), jsStartsWith s PEERTUBE_SCHEME = false →
      parseUrl s = some u →
      (jsSplitChar '/' u.pathname).filter (· ≠ []) = [] →
      parseInput s = ⟨ensureHttps (String.mk u.host), none⟩) := by
  refine ⟨rfl, ?_, ?_⟩
  · intro s hpt hp
    by_cases hs : s = ""
    · rw [hs]; rfl
    · simp only [parseInput]
      rw [if_neg hs, if_neg (by rw [hpt]; exact Bool.false_ne_true)]
      rw [show parseUrlL s.data = none from hp]
  · intro s u hpt hp hparts
    have hs : s ≠ "" := by
      intro he
      rw [he] at hp
      rw [show parseUrl "" = none from rfl] at hp
      exact Option.noConfusion hp
    simp only [parseInput]
    rw [if_neg hs, if_neg (by rw [hpt]; exact Bool.false_ne_true)]
    rw [show parseUrlL s.data = some u from hp]
    simp only [hparts]
    rfl

/-- Witness for C5 at a non-URL input and at a URL with an empty path. -/
theorem parseInput_total_unresolved_witness :
    parseInput "hello" = ⟨none, none⟩ ∧
    parseInput "https://x" = ⟨ensureHttps (String.mk "x".data), none⟩ :=
  ⟨parseInput_total_unresolved.2.1 "hello" (by decide) (by decide),
   parseInput_total_unresolved.2.2 "https://x" ⟨"https".data, "x".data, "/".data, []⟩
     (by decide) (by decide) (by decide)⟩

/-! ### Claim C4: the three input shapes -/

/-- Reduce `parseInput` on a non-scheme input whose URL parse succeeds. -/
theorem parseInput_of_parse (s : String) (hne : s ≠ "")
    (hpt : jsStartsWith s PEERTUBE_SCHEME = false)
    (scheme host path search : List Char)
    (hp : parseUrlL s.data = some ⟨scheme, host, path, search⟩) :
    parseInput s =
      (match patternId urlPatterns ((jsSplitChar '/' path).filter (· ≠ [])) with
       | some i => ⟨ensureHttps (String.mk host), some (String.mk i)⟩
       | none =>
         match ((jsSplitChar '/' path).filter (· ≠ [])).getLast? with
         | some seg => ⟨ensureHttps (String.mk host), some (String.mk seg)⟩
         | none => ⟨ensureHttps (String.mk host), none⟩) := by
  simp only [parseInput]
  rw [if_neg hne, if_neg fun hq => Bool.false_ne_true (hpt ▸ hq)]
  rw [hp]

/-- `specialTail` on a valid host followed by a slash-led query-free path. -/
theorem specialTail_host_path (scheme : List Char) (hs : String) (t : List Char)
    (hh1 : hs ≠ "") (hh2 : ∀ c ∈ hs.data, hostChar c = true)
    (ht : ∀ c ∈ t, (decide (c ≠ '?') && decide (c ≠ '#')) = true)
    (ht0 : ∃ t', t = '/' :: t') :
    specialTail scheme ('/' :: '/' :: (hs.data ++ t)) = some ⟨scheme, hs.data, t, []⟩ := by
  obtain ⟨c0, h', hc0⟩ : ∃ c0 h', hs.data = c0 :: h' := by
    cases hd : hs.data with
    | nil => exact absurd (String.ext (hd.trans rfl)) hh1
    | cons a b => exact ⟨a, b, rfl⟩
  obtain ⟨t', ht'⟩ := ht0
  have hc0host := hostChar_of (hh2 c0 (by rw [hc0]; exact List.mem_cons_self c0 h'))
  have e1 : ('/' :: '/' :: (hs.data ++ t)).dropWhile (fun c => decide (c = '/') || decide (c = '\\')) =
      hs.data ++ t := by
    rw [List.dropWhile_cons, if_pos (by decide), List.dropWhile_cons, if_pos (by decide),
      hc0, List.cons_append, List.dropWhile_cons,
      if_neg (by
        intro hb
        simp only [Bool.or_eq_true] at hb
        rcases hb with hb' | hb'
        · exact hc0host.2.2.1 (of_decide_eq_true hb')
        · exact hc0host.2.2.2.1 (of_decide_eq_true hb')), ← List.cons_append]
  have e2 : (hs.data ++ t).takeWhile authChar = hs.data := by
    rw [takeWhile_append_all t fun c hc => (hostChar_of (hh2 c hc)).1,
      ht', List.takeWhile_cons, if_neg (by decide), List.append_nil]
  have e3 : (hs.data ++ t).dropWhile authChar = t := by
    rw [dropWhile_append_all t fun c hc => (hostChar_of (hh2 c hc)).1,
      ht', List.dropWhile_cons, if_neg (by decide)]
  have e4 : afterLastAt hs.data = hs.data :=
    afterLastAt_all fun hat => absurd (hh2 '@' hat) (by decide)
  have e5 : hs.data.map lowerChar = hs.data := map_lowerChar_id hh2
  have e6 : splitPathSearch t = (t, []) := by
    unfold splitPathSearch
    rw [takeWhile_all_eq ht,
      show t.dropWhile (fun c => decide (c ≠ '?') && decide (c ≠ '#')) = [] from by
        have := @dropWhile_append_all (fun c => decide (c ≠ '?') && decide (c ≠ '#')) t [] ht
        simpa using this]
  simp only [specialTail]
  rw [e1, e2, e3, e4, e5, e6]
  rw [if_neg (by rw [hc0]; exact fun hcon => List.noConfusion hcon)]
  rw [if_neg (by rw [ht']; exact fun hcon => List.noConfusion hcon)]

/-- The pattern loop on parts `["w", x]`. -/
theorem patternId_w (x : List Char) (hx : x ≠ []) :
    patternId urlPatterns [['w'], x] = some x := by
  have h : patternId urlPatterns [['w'], x] =
      if x ≠ [] then some x
      else patternId [["videos".data, "watch".data], ["videos".data, "embed".data],
        ["api".data, "v1".data, "videos".data]] [['w'], x] := rfl
  rw [h, if_pos hx]

/-- The pattern loop on parts `["videos", "watch", x]`. -/
theorem patternId_watch (x : List Char) (hx : x ≠ []) :
    patternId urlPatterns ["videos".data, "watch".data, x] = some x := by
  by_cases hw : x = "w".data
  · subst hw; decide
  · have hf1 : findPatIdx ["videos".data, "watch".data, x] ["w".data] = none := by
      show (List.range 3).find? _ = none
      rw [show List.range 3 = [0, 1, 2] from rfl]
      have f2 : findPatIdx.isPre' ["w".data] ((["videos".data, "watch".data, x]).drop 2) =
          false := by
        show (("w".data == x) && findPatIdx.isPre' [] []) = false
        rw [beq_eq_false_iff_ne.mpr (Ne.symm hw)]
        rfl
      rw [List.find?_cons_of_neg _ (by
            show ¬(findPatIdx.isPre' ["w".data] ((["videos".data, "watch".data, x]).drop 0) = true)
            intro hcon; exact Bool.false_ne_true (rfl.symm.trans hcon)),
          List.find?_cons_of_neg _ (by
            show ¬(findPatIdx.isPre' ["w".data] ((["videos".data, "watch".data, x]).drop 1) = true)
            intro hcon; exact Bool.false_ne_true (rfl.symm.trans hcon)),
          List.find?_cons_of_neg _ (by
            show ¬(findPatIdx.isPre' ["w".data] ((["videos".data, "watch".data, x]).drop 2) = true)
            rw [f2]; exact Bool.false_ne_true)]
      rfl
    show (match findPatIdx ["videos".data, "watch".data, x] ["w".data] with
      | some i =>
        match (["videos".data, "watch".data, x] : List (List Char)).get? (i + 1) with
        | some seg =>
          if seg ≠ [] then some seg
          else patternId [["videos".data, "watch".data], ["videos".data, "embed".data],
            ["api".data, "v1".data, "videos".data]] ["videos".data, "watch".data, x]
        | none => patternId [["videos".data, "watch".data], ["videos".data, "embed".data],
            ["api".data, "v1".data, "videos".data]] ["videos".data, "watch".data, x]
      | none => patternId [["videos".data, "watch".data], ["videos".data, "embed".data],
          ["api".data, "v1".data, "videos".data]] ["videos".data, "watch".data, x]) = some x
    rw [hf1]
    show (if x ≠ [] then some x
      else patternId [["videos".data, "embed".data], ["api".data, "v1".data, "videos".data]]
        ["videos".data, "watch".data, x]) = some x
    rw [if_pos hx]

/-- The pattern loop on parts `["api", "v1", "videos", x]`. -/
theorem patternId_api (x : List Char) (hx : x ≠ []) :
    patternId urlPatterns ["api".data, "v1".data, "videos".data, x] = some x := by
  by_cases hw1 : x = "w".data
  · subst hw1; decide
  by_cases hw2 : x = "watch".data
  · subst hw2; decide
  by_cases hw3 : x = "embed".data
  · subst hw3; decide
  have hf1 : findPatIdx ["api".data, "v1".data, "videos".data, x] ["w".data] = none := by
    show (List.range 4).find? _ = none
    rw [show List.range 4 = [0, 1, 2, 3] from rfl]
    rw [List.find?_cons_of_neg _ (by
          show ¬(findPatIdx.isPre' ["w".data]
            ((["api".data, "v1".data, "videos".data, x]).drop 0) = true)
          intro hcon; exact Bool.false_ne_true (rfl.symm.trans hcon)),
        List.find?_cons_of_neg _ (by
          show ¬(findPatIdx.isPre' ["w".data]
            ((["api".data, "v1".data, "videos".data, x]).drop 1) = true)
          intro hcon; exact Bool.false_ne_true (rfl.symm.trans hcon)),
        List.find?_cons_of_neg _ (by
          show ¬(findPatIdx.isPre' ["w".data]
            ((["api".data, "v1".data, "videos".data, x]).drop 2) = true)
          intro hcon; exact Bool.false_ne_true (rfl.symm.trans hcon)),
        List.find?_cons_of_neg _ (by
          show ¬(findPatIdx.isPre' ["w".data]
            ((["api".data, "v1".data, "videos".data, x]).drop 3) = true)
          show ¬((("w".data == x) && findPatIdx.isPre' ([] : List (List Char)) []) = true)
          rw [beq_eq_false_iff_ne.mpr (Ne.symm hw1)]
          intro hcon; exact Bool.false_ne_true (rfl.symm.trans hcon))]
    rfl
  have hf2 : findPatIdx ["api".data, "v1".data, "videos".data, x]
      ["videos".data, "watch".data] = none := by
    show (List.range 4).find? _ = none
    rw [show List.range 4 = [0, 1, 2, 3] from rfl]
    rw [List.find?_cons_of_neg _ (by
          show ¬(findPatIdx.isPre' ["videos".data, "watch".data]
            ((["api".data, "v1".data, "videos".data, x]).drop 0) = true)
          intro hcon; exact Bool.false_ne_true (rfl.symm.trans hcon)),
        List.find?_cons_of_neg _ (by
          show ¬(findPatIdx.isPre' ["videos".data, "watch".data]
            ((["api".data, "v1".data, "videos".data, x]).drop 1) = true)
          intro hcon; exact Bool.false_ne_true (rfl.symm.trans hcon)),
        List.find?_cons_of_neg _ (by
          show ¬(findPatIdx.isPre' ["videos".data, "watch".data]
            ((["api".data, "v1".data, "videos".data, x]).drop 2) = true)
          show ¬((("watch".data == x) && findPatIdx.isPre' ([] : List (List Char)) []) = true)
          rw [beq_eq_false_iff_ne.mpr (Ne.symm hw2)]
          intro hcon; exact Bool.false_ne_true (rfl.symm.trans hcon)),
        List.find?_cons_of_neg _ (by
          show ¬(findPatIdx.isPre' ["videos".data, "watch".data]
            ((["api".data, "v1".data, "videos".data, x]).drop 3) = true)
          show ¬((("videos".data == x) && false) = true)
          rw [Bool.and_false]
          intro hcon; exact Bool.false_ne_true hcon)]
    rfl
  have hf3 : findPatIdx ["api".data, "v1".data, "videos".data, x]
      ["videos".data, "embed".data] = none := by
    show (List.range 4).find? _ = none
    rw [show List.range 4 = [0, 1, 2, 3] from rfl]
    rw [List.find?_cons_of_neg _ (by
          show ¬(findPatIdx.isPre' ["videos".data, "embed".data]
            ((["api".data, "v1".data, "videos".data, x]).drop 0) = true)
          intro hcon; exact Bool.false_ne_true (rfl.symm.trans hcon)),
        List.find?_cons_of_neg _ (by
          show ¬(findPatIdx.isPre' ["videos".data, "embed".data]
            ((["api".data, "v1".data, "videos".data, x]).drop 1) = true)
          intro hcon; exact Bool.false_ne_true (rfl.symm.trans hcon)),
        List.find?_cons_of_neg _ (by
          show ¬(findPatIdx.isPre' ["videos".data, "embed".data]
            ((["api".data, "v1".data, "videos".data, x]).drop 2) = true)
          show ¬((("embed".data == x) && findPatIdx.isPre' ([] : List (List Char)) []) = true)
          rw [beq_eq_false_iff_ne.mpr (Ne.symm hw3)]
          intro hcon; exact Bool.false_ne_true (rfl.symm.trans hcon)),
        List.find?_cons_of_neg _ (by
          show ¬(findPatIdx.isPre' ["videos".data, "embed".data]
            ((["api".data, "v1".data, "videos".data, x]).drop 3) = true)
          show ¬((("videos".data == x) && false) = true)
          rw [Bool.and_false]
          intro hcon; exact Bool.false_ne_true hcon)]
    rfl
  show (match findPatIdx ["api".data, "v1".data, "videos".data, x] ["w".data] with
    | some i =>
      match (["api".data, "v1".data, "videos".data, x] : List (List Char)).get? (i + 1) with
      | some seg =>
        if seg ≠ [] then some seg
        else patternId [["videos".data, "watch".data], ["videos".data, "embed".data],
          ["api".data, "v1".data, "videos".data]] ["api".data, "v1".data, "videos".data, x]
      | none => patternId [["videos".data, "watch".data], ["videos".data, "embed".data],
          ["api".data, "v1".data, "videos".data]] ["api".data, "v1".data, "videos".data, x]
    | none => patternId [["videos".data, "watch".data], ["videos".data, "embed".data],
        ["api".data, "v1".data, "videos".data]] ["api".data, "v1".data, "videos".data, x]) =
    some x
  rw [hf1]
  show (match findPatIdx ["api".data, "v1".data, "videos".data, x]
      ["videos".data, "watch".data] with
    | some i =>
      match (["api".data, "v1".data, "videos".data, x] : List (List Char)).get? (i + 2) with
      | some seg =>
        if seg ≠ [] then some seg
        else patternId [["videos".data, "embed".data],
          ["api".data, "v1".data, "videos".data]] ["api".data, "v1".data, "videos".data, x]
      | none => patternId [["videos".data, "embed".data],
          ["api".data, "v1".data, "videos".data]] ["api".data, "v1".data, "videos".data, x]
    | none => patternId [["videos".data, "embed".data],
        ["api".data, "v1".data, "videos".data]] ["api".data, "v1".data, "videos".data, x]) =
    some x
  rw [hf2]
  show (match findPatIdx ["api".data, "v1".data, "videos".data, x]
      ["videos".data, "embed".data] with
    | some i =>
      match (["api".data, "v1".data, "videos".data, x] : List (List Char)).get? (i + 2) with
      | some seg =>
        if seg ≠ [] then some seg
        else patternId [["api".data, "v1".data, "videos".data]]
          ["api".data, "v1".data, "videos".data, x]
      | none => patternId [["api".data, "v1".data, "videos".data]]
          ["api".data, "v1".data, "videos".data, x]
    | none => patternId [["api".data, "v1".data, "videos".data]]
        ["api".data, "v1".data, "videos".data, x]) = some x
  rw [hf3]
  show (if x ≠ [] then some x
    else patternId ([] : List (List (List Char))) ["api".data, "v1".data, "videos".data, x]) =
    some x
  rw [if_pos hx]

/-- C4: each of the three valid input shapes (internal scheme, watch-style
URL — including an insecure `http://` that gets rewritten — and API-style
URL) with a valid host and id normalizes to the secured https host and
that id; e.g. `peertube://videos.example/ABC123` yields
`{host: "https://videos.example", resourceId: "ABC123"}`. -/
theorem parseInput_three_shapes (h i : String) (hh : ValidHost h) (hi : ValidId i) :
    parseInput ("peertube://" ++ h ++ "/" ++ i) = ⟨some ("https://" ++ h), some i⟩ ∧
    parseInput ("https://" ++ h ++ "/w/" ++ i) = ⟨some ("https://" ++ h), some i⟩ ∧
    parseInput ("http://" ++ h ++ "/videos/watch/" ++ i) = ⟨some ("https://" ++ h), some i⟩ ∧
    parseInput ("https://" ++ h ++ "/api/v1/videos/" ++ i) = ⟨some ("https://" ++ h), some i⟩ := by
  obtain ⟨hh1, hh2⟩ := hh
  obtain ⟨hi1, hi2⟩ := hi
  have hiD : i.data ≠ [] := fun hd => hi1 (String.ext (hd.trans rfl))
  have hslash_i : '/' ∉ i.data := fun hm => (idChar_of (hi2 '/' hm)).2.1 rfl
  have hslash_h : '/' ∉ h.data := fun hm => (hostChar_of (hh2 '/' hm)).2.2.1 rfl
  have hq_i : ∀ c ∈ i.data, (decide (c ≠ '?') && decide (c ≠ '#')) = true := by
    intro c hc
    have hx := idChar_of (hi2 c hc)
    rw [decide_eq_true hx.2.2.1, decide_eq_true hx.2.2.2.1]
    rfl
  have hHost := ensureHttps_valid hh1 hh2
  simp only [String.append_assoc]
  refine ⟨?_, ?_, ?_, ?_⟩
  · -- peertube://host/id
    have hne : ("peertube://" ++ (h ++ ("/" ++ i))) ≠ "" := by
      intro he
      have hd := congrArg String.data he
      rw [String.data_append, show ("" : String).data = [] from rfl] at hd
      exact absurd (List.append_eq_nil.mp hd).1 (by decide)
    have hstart : jsStartsWith ("peertube://" ++ (h ++ ("/" ++ i))) PEERTUBE_SCHEME = true := by
      show isPre PEERTUBE_SCHEME.data (String.data _) = true
      rw [String.data_append]
      exact isPre_append_self _ _
    have hdrop : ("peertube://" ++ (h ++ ("/" ++ i))).data.drop PEERTUBE_SCHEME.length =
        h.data ++ '/' :: i.data := by
      rw [String.data_append,
        show PEERTUBE_SCHEME.length = ("peertube://".data).length from rfl,
        List.drop_left, String.data_append]
      exact rfl
    simp only [parseInput]
    rw [if_neg hne, if_pos hstart, hdrop,
      jsSplitChar_append i.data hslash_h, jsSplitChar_not_mem hslash_i]
    show Ref.mk (ensureHttps h) (some i) = Ref.mk (some ("https://" ++ h)) (some i)
    rw [hHost]
  · -- https://host/w/id
    have hne : ("https://" ++ (h ++ ("/w/" ++ i))) ≠ "" := by
      intro he
      have hd := congrArg String.data he
      rw [String.data_append, show ("" : String).data = [] from rfl] at hd
      exact absurd (List.append_eq_nil.mp hd).1 (by decide)
    have hpt : jsStartsWith ("https://" ++ (h ++ ("/w/" ++ i))) PEERTUBE_SCHEME = false := rfl
    have hrdata : (h ++ ("/w/" ++ i)).data = h.data ++ ('/' :: 'w' :: '/' :: i.data) := by
      rw [String.data_append, String.data_append]
      exact rfl
    have hparse : parseUrlL ("https://" ++ (h ++ ("/w/" ++ i))).data =
        some ⟨"https".data, h.data, '/' :: 'w' :: '/' :: i.data, []⟩ := by
      rw [parseUrlL_https, hrdata]
      refine specialTail_host_path _ h _ hh1 hh2 ?_ ⟨_, rfl⟩
      intro c hc
      rcases List.mem_cons.mp hc with rfl | hc
      · decide
      rcases List.mem_cons.mp hc with rfl | hc
      · decide
      rcases List.mem_cons.mp hc with rfl | hc
      · decide
      exact hq_i c hc
    rw [parseInput_of_parse _ hne hpt _ _ _ _ hparse]
    have hsplit : jsSplitChar '/' ('/' :: 'w' :: '/' :: i.data) = [[], ['w'], i.data] := by
      have e1 : jsSplitChar '/' ('/' :: 'w' :: '/' :: i.data) =
          [] :: jsSplitChar '/' ('w' :: '/' :: i.data) :=
        @jsSplitChar_append '/' [] ('w' :: '/' :: i.data) (by simp)
      have e2 : jsSplitChar '/' ('w' :: '/' :: i.data) = ['w'] :: jsSplitChar '/' i.data :=
        @jsSplitChar_append '/' ['w'] i.data (by decide)
      rw [e1, e2, jsSplitChar_not_mem hslash_i]
    rw [hsplit]
    have hfil : ([[], ['w'], i.data] : List (List Char)).filter (· ≠ []) = [['w'], i.data] := by
      simp [List.filter_cons, hiD]
    rw [hfil, patternId_w i.data hiD]
    show Ref.mk (ensureHttps h) (some i) = Ref.mk (some ("https://" ++ h)) (some i)
    rw [hHost]
  · -- http://host/videos/watch/id
    have hne : ("http://" ++ (h ++ ("/videos/watch/" ++ i))) ≠ "" := by
      intro he
      have hd := congrArg String.data he
      rw [String.data_append, show ("" : String).data = [] from rfl] at hd
      exact absurd (List.append_eq_nil.mp hd).1 (by decide)
    have hpt : jsStartsWith ("http://" ++ (h ++ ("/videos/watch/" ++ i)))
        PEERTUBE_SCHEME = false := rfl
    have hrdata : (h ++ ("/videos/watch/" ++ i)).data =
        h.data ++ ('/' :: ("videos".data ++ '/' :: ("watch".data ++ '/' :: i.data))) := by
      rw [String.data_append, String.data_append]
      exact rfl
    have hparse : parseUrlL ("http://" ++ (h ++ ("/videos/watch/" ++ i))).data =
        some ⟨"http".data, h.data,
          '/' :: ("videos".data ++ '/' :: ("watch".data ++ '/' :: i.data)), []⟩ := by
      rw [parseUrlL_http, hrdata]
      refine specialTail_host_path _ h _ hh1 hh2 ?_ ⟨_, rfl⟩
      intro c hc
      rcases List.mem_cons.mp hc with rfl | hc
      · decide
      rcases List.mem_append.mp hc with hc | hc
      · exact (show ∀ c ∈ "videos".data,
          (decide (c ≠ '?') && decide (c ≠ '#')) = true by decide) c hc
      rcases List.mem_cons.mp hc with rfl | hc
      · decide
      rcases List.mem_append.mp hc with hc | hc
      · exact (show ∀ c ∈ "watch".data,
          (decide (c ≠ '?') && decide (c ≠ '#')) = true by decide) c hc
      rcases List.mem_cons.mp hc with rfl | hc
      · decide
      exact hq_i c hc
    rw [parseInput_of_parse _ hne hpt _ _ _ _ hparse]
    have hsplit : jsSplitChar '/'
        ('/' :: ("videos".data ++ '/' :: ("watch".data ++ '/' :: i.data))) =
        [[], "videos".data, "watch".data, i.data] := by
      have e1 : jsSplitChar '/'
          ('/' :: ("videos".data ++ '/' :: ("watch".data ++ '/' :: i.data))) =
          [] :: jsSplitChar '/' ("videos".data ++ '/' :: ("watch".data ++ '/' :: i.data)) :=
        @jsSplitChar_append '/' []
          ("videos".data ++ '/' :: ("watch".data ++ '/' :: i.data)) (by simp)
      have e2 : jsSplitChar '/' ("videos".data ++ '/' :: ("watch".data ++ '/' :: i.data)) =
          "videos".data :: jsSplitChar '/' ("watch".data ++ '/' :: i.data) :=
        @jsSplitChar_append '/' "videos".data ("watch".data ++ '/' :: i.data) (by decide)
      have e3 : jsSplitChar '/' ("watch".data ++ '/' :: i.data) =
          "watch".data :: jsSplitChar '/' i.data :=
        @jsSplitChar_append '/' "watch".data i.data (by decide)
      rw [e1, e2, e3, jsSplitChar_not_mem hslash_i]
    rw [hsplit]
    have hfil : ([[], "videos".data, "watch".data, i.data] : List (List Char)).filter (· ≠ []) =
        ["videos".data, "watch".data, i.data] := by
      simp [List.filter_cons, hiD]
    rw [hfil, patternId_watch i.data hiD]
    show Ref.mk (ensureHttps h) (some i) = Ref.mk (some ("https://" ++ h)) (some i)
    rw [hHost]
  · -- https://host/api/v1/videos/id
    have hne : ("https://" ++ (h ++ ("/api/v1/videos/" ++ i))) ≠ "" := by
      intro he
      have hd := congrArg String.data he
      rw [String.data_append, show ("" : String).data = [] from rfl] at hd
      exact absurd (List.append_eq_nil.mp hd).1 (by decide)
    have hpt : jsStartsWith ("https://" ++ (h ++ ("/api/v1/videos/" ++ i)))
        PEERTUBE_SCHEME = false := rfl
    have hrdata : (h ++ ("/api/v1/videos/" ++ i)).data =
        h.data ++ ('/' :: ("api".data ++ '/' ::
          ("v1".data ++ '/' :: ("videos".data ++ '/' :: i.data)))) := by
      rw [String.data_append, String.data_append]
      exact rfl
    have hparse : parseUrlL ("https://" ++ (h ++ ("/api/v1/videos/" ++ i))).data =
        some ⟨"https".data, h.data,
          '/' :: ("api".data ++ '/' :: ("v1".data ++ '/' :: ("videos".data ++ '/' :: i.data))),
          []⟩ := by
      rw [parseUrlL_https, hrdata]
      refine specialTail_host_path _ h _ hh1 hh2 ?_ ⟨_, rfl⟩
      intro c hc
      rcases List.mem_cons.mp hc with rfl | hc
      · decide
      rcases List.mem_append.mp hc with hc | hc
      · exact (show ∀ c ∈ "api".data,
          (decide (c ≠ '?') && decide (c ≠ '#')) = true by decide) c hc
      rcases List.mem_cons.mp hc with rfl | hc
      · decide
      rcases List.mem_append.mp hc with hc | hc
      · exact (show ∀ c ∈ "v1".data,
          (decide (c ≠ '?') && decide (c ≠ '#')) = true by decide) c hc
      rcases List.mem_cons.mp hc with rfl | hc
      · decide
      rcases List.mem_append.mp hc with hc | hc
      · exact (show ∀ c ∈ "videos".data,
          (decide (c ≠ '?') && decide (c ≠ '#')) = true by decide) c hc
      rcases List.mem_cons.mp hc with rfl | hc
      · decide
      exact hq_i c hc
    rw [parseInput_of_parse _ hne hpt _ _ _ _ hparse]
    have hsplit : jsSplitChar '/'
        ('/' :: ("api".data ++ '/' :: ("v1".data ++ '/' :: ("videos".data ++ '/' :: i.data)))) =
        [[], "api".data, "v1".data, "videos".data, i.data] := by
      have e1 : jsSplitChar '/'
          ('/' :: ("api".data ++ '/' :: ("v1".data ++ '/' :: ("videos".data ++ '/' :: i.data)))) =
          [] :: jsSplitChar '/'
            ("api".data ++ '/' :: ("v1".data ++ '/' :: ("videos".data ++ '/' :: i.data))) :=
        @jsSplitChar_append '/' []
          ("api".data ++ '/' :: ("v1".data ++ '/' :: ("videos".data ++ '/' :: i.data))) (by simp)
      have e2 : jsSplitChar '/'
          ("api".data ++ '/' :: ("v1".data ++ '/' :: ("videos".data ++ '/' :: i.data))) =
          "api".data :: jsSplitChar '/' ("v1".data ++ '/' :: ("videos".data ++ '/' :: i.data)) :=
        @jsSplitChar_append '/' "api".data
          ("v1".data ++ '/' :: ("videos".data ++ '/' :: i.data)) (by decide)
      have e3 : jsSplitChar '/' ("v1".data ++ '/' :: ("videos".data ++ '/' :: i.data)) =
          "v1".data :: jsSplitChar '/' ("videos".data ++ '/' :: i.data) :=
        @jsSplitChar_append '/' "v1".data ("videos".data ++ '/' :: i.data) (by decide)
      have e4 : jsSplitChar '/' ("videos".data ++ '/' :: i.data) =
          "videos".data :: jsSplitChar '/' i.data :=
        @jsSplitChar_append '/' "videos".data i.data (by decide)
      rw [e1, e2, e3, e4, jsSplitChar_not_mem hslash_i]
    rw [hsplit]
    have hfil : ([[], "api".data, "v1".data, "videos".data, i.data] :
        List (List Char)).filter (· ≠ []) =
        ["api".data, "v1".data, "videos".data, i.data] := by
      simp [List.filter_cons, hiD]
    rw [hfil, patternId_api i.data hiD]
    show Ref.mk (ensureHttps h) (some i) = Ref.mk (some ("https://" ++ h)) (some i)
    rw [hHost]

/-- Witness for C4 at the concrete example of the claim. -/
theorem parseInput_three_shapes_witness :
    parseInput "peertube://videos.example/ABC123" =
      ⟨some "https://videos.example", some "ABC123"⟩ := by
  have h := (parseInput_three_shapes "videos.example" "ABC123"
    ⟨by decide, by decide⟩ ⟨by decide, by decide⟩).1
  exact h

/-! ### Claim C8: the Post Resolver front end (corrected) -/

/-- C8 as stated ("first present wins" among `s`, `v`, `i`) is false on
the code: with query `?s=&v=ABC` the parameter `s` is present (with an
empty value), yet the extracted identifier is `"ABC"` — JavaScript's `||`
chain skips the empty string. -/
theorem extractBastyonPostTx_first_present_cex :
    getParam "s=&v=ABC".data "s" = some "" ∧
    extractBastyonPostTx "https://bastyon.com/post?s=&v=ABC" = some "ABC" ∧
    (some "ABC" : Option String) ≠ some "" :=
  ⟨by decide, by decide, by decide⟩

/-- C8 (amended): the Post Resolver stage applies only when the URL
parses, its lowercased host ends with one of the two recognized suffixes,
and its path with trailing slashes stripped is exactly `/post` or
`/index`; the identifier is the first of the query parameters `s`, `v`,
`i` that is present with a non-empty value (empty-valued parameters are
skipped); and when no identifier is found, `resolveInput` hands the raw
input to the Reference Normalizer unchanged. -/
theorem extractBastyonPostTx_spec :
    (∀ (input tx : String), extractBastyonPostTx input = some tx →
      ∃ u : JsUrl, parseUrlL input.data = some u ∧
        (jsEndsWith (String.mk (u.host.map lowerChar)) "bastyon.com" = true ∨
         jsEndsWith (String.mk (u.host.map lowerChar)) "pocketnet.app" = true) ∧
        (stripTrailingSlashes u.pathname = "/post".data ∨
         stripTrailingSlashes u.pathname = "/index".data)) ∧
    (∀ (input : String) (u : JsUrl), parseUrlL input.data = some u →
      (jsEndsWith (String.mk (u.host.map lowerChar)) "bastyon.com" = true ∨
       jsEndsWith (String.mk (u.host.map lowerChar)) "pocketnet.app" = true) →
      (stripTrailingSlashes u.pathname = "/post".data ∨
       stripTrailingSlashes u.pathname = "/index".data) →
      extractBastyonPostTx input =
        firstTruthyStr [getParam u.search "s", getParam u.search "v", getParam u.search "i"]) ∧
    (∀ (input : String) (postResolve : String → Except String Ref),
      extractBastyonPostTx input = none →
      resolveInput input postResolve = .ok (parseInput input)) := by
  refine ⟨?_, ?_, ?_⟩
  · intro input tx hx
    cases hp : parseUrlL input.data with
    | none =>
      rw [extractBastyonPostTx, hp] at hx
      exact Option.noConfusion hx
    | some u =>
      refine ⟨u, rfl, ?_⟩
      rw [extractBastyonPostTx, hp] at hx
      simp only at hx
      by_cases hcond :
          (!(jsEndsWith (String.mk (u.host.map lowerChar)) "bastyon.com" ||
             jsEndsWith (String.mk (u.host.map lowerChar)) "pocketnet.app") ||
           !(decide (stripTrailingSlashes u.pathname = "/post".data) ||
             decide (stripTrailingSlashes u.pathname = "/index".data))) = true
      · rw [if_pos hcond] at hx
        exact Option.noConfusion hx
      · have hc := Bool.not_eq_true _ |>.mp hcond
        simp only [Bool.or_eq_false_iff, Bool.not_eq_false', Bool.or_eq_true,
          decide_eq_true_eq] at hc
        exact ⟨hc.1, hc.2⟩
  · intro input u hp hB hP
    have hB' : (jsEndsWith (String.mk (u.host.map lowerChar)) "bastyon.com" ||
        jsEndsWith (String.mk (u.host.map lowerChar)) "pocketnet.app") = true := by
      rcases hB with hb | hb
      · rw [hb, Bool.true_or]
      · rw [hb, Bool.or_true]
    have hP' : (decide (stripTrailingSlashes u.pathname = "/post".data) ||
        decide (stripTrailingSlashes u.pathname = "/index".data)) = true := by
      rcases hP with hb | hb
      · rw [decide_eq_true hb, Bool.true_or]
      · rw [decide_eq_true hb, Bool.or_true]
    rw [extractBastyonPostTx, hp]
    simp only [hB', hP', Bool.not_true, Bool.or_false, if_false]
    rw [if_neg (by exact Bool.false_ne_true)]
  · intro input postResolve hnone
    rw [resolveInput, hnone]

/-- Witness for C8's amended claim at a concrete post URL and a concrete
non-post URL. -/
theorem extractBastyonPostTx_spec_witness :
    extractBastyonPostTx "https://bastyon.com/post?v=ABC" =
      firstTruthyStr [getParam "v=ABC".data "s", getParam "v=ABC".data "v",
        getParam "v=ABC".data "i"] ∧
    resolveInput "https://example.com/x" (fun _ => .error "") =
      .ok (parseInput "https://example.com/x") :=
  ⟨extractBastyonPostTx_spec.2.1 "https://bastyon.com/post?v=ABC"
      ⟨"https".data, "bastyon.com".data, "/post".data, "v=ABC".data⟩
      (by decide) (by decide) (by decide),
   extractBastyonPostTx_spec.2.2 "https://example.com/x" (fun _ => .error "") (by decide)⟩
